import Mathlib

/-!
Verification of the Dora-OSG synchronization, packaging and
version-retention engine (`internal/service/sync.go`,
`internal/store/sqlite.go`, `internal/handler/api.go`, `pkg/zip/zip.go`).

The SQLite store is embedded as explicit lists of rows; each Go store
method becomes a pure Lean function on that state.  Filesystem effects
(the `zips` directory) are embedded as the list of file paths present on
disk.  Collaborator calls (`git.PullOrClone`, `git.GetLatestCommit`,
`zip.CreateZip`) are embedded as an `Observation` record holding their
outcomes for the run.  Timestamps are `Nat`; `time.Now()` is a `now`
parameter.  Go's `commitHash[:7]` is embedded as `String.take 7` (the Go
code assumes hashes of length at least 7, and panics otherwise).
-/

namespace DoraOSG

instance {ε α : Type} [DecidableEq ε] [DecidableEq α] :
    DecidableEq (Except ε α) := fun a b =>
  match a, b with
  | .ok x, .ok y =>
    if h : x = y then isTrue (by rw [h]) else isFalse (by simp [h])
  | .error x, .error y =>
    if h : x = y then isTrue (by rw [h]) else isFalse (by simp [h])
  | .ok _, .error _ => isFalse (by simp)
  | .error _, .ok _ => isFalse (by simp)

/-- `model.DBRepo`: one row of the `repos` table (audit timestamps
`created_at`/`updated_at`, which no claim-relevant code reads, are
omitted). -/
structure DBRepo where
  id : Int
  name : String
  url : String
  sync : String
  tag : String
  lastSync : Nat
  commitHash : String
  zipFile : String
  size : Int
  deriving Repr, DecidableEq

/-- `model.DBVersion`: one row of the `versions` table. -/
structure DBVersion where
  id : Int
  repoID : Int
  tag : String
  commitHash : String
  zipFile : String
  size : Int
  createdAt : Nat
  deleted : Bool
  deriving Repr, DecidableEq

/-- `model.DBPackageListVersion`: one row of the `package_list_versions`
table. -/
structure DBPackageListVersion where
  id : Int
  version : Int
  updatedAt : Nat
  deriving Repr, DecidableEq

/-- The SQLite database state: the three tables plus the autoincrement
counters for their `id` columns. -/
structure Store where
  repos : List DBRepo
  versions : List DBVersion
  plVersions : List DBPackageListVersion
  nextRepoId : Int
  nextVersionId : Int
  nextPlId : Int
  deriving Repr, DecidableEq

/-- `SQLiteStore.GetRepoByName`: `SELECT * FROM repos WHERE name = ?`
(`name` is UNIQUE, so the first match is the row). `none` embeds the
`sql.ErrNoRows` / "repo not found" outcome. -/
def GetRepoByName (st : Store) (name : String) : Option DBRepo :=
  st.repos.find? (fun r => r.name == name)

/-- `SQLiteStore.UpsertRepo`: `INSERT ... ON CONFLICT(name) DO UPDATE SET
tag, last_sync, commit_hash, zip_file, size, updated_at ... RETURNING id`.
Returns the updated store and the assigned row id. -/
def UpsertRepo (st : Store) (r : DBRepo) : Store × Int :=
  match st.repos.find? (fun w => w.name == r.name) with
  | some w =>
    ({ st with repos := st.repos.map (fun u =>
        if u.name == r.name then
          { u with tag := r.tag, lastSync := r.lastSync,
                   commitHash := r.commitHash, zipFile := r.zipFile,
                   size := r.size }
        else u) }, w.id)
  | none =>
    ({ st with repos := st.repos ++ [{ r with id := st.nextRepoId }],
               nextRepoId := st.nextRepoId + 1 }, st.nextRepoId)

/-- `SQLiteStore.AddVersion`: `INSERT INTO versions ... ON
CONFLICT(repo_id, tag) DO UPDATE SET commit_hash, zip_file, size,
created_at ... RETURNING id`.  The schema enforces UNIQUE(repo_id, tag);
the conflict update is embedded as a map over the rows with that key. -/
def AddVersion (st : Store) (v : DBVersion) : Store × Int :=
  match st.versions.find? (fun w => w.repoID == v.repoID && w.tag == v.tag) with
  | some w =>
    ({ st with versions := st.versions.map (fun u =>
        if u.repoID == v.repoID && u.tag == v.tag then
          { u with commitHash := v.commitHash, zipFile := v.zipFile,
                   size := v.size, createdAt := v.createdAt }
        else u) }, w.id)
  | none =>
    ({ st with
        versions := st.versions ++ [{ v with id := st.nextVersionId, deleted := false }],
        nextVersionId := st.nextVersionId + 1 }, st.nextVersionId)

/-- `ORDER BY created_at DESC` (SQLite scans in rowid = insertion order,
so the sort is stable with ties left in insertion order; a stable
insertion sort embeds that). -/
def createdAtDesc (a b : DBVersion) : Prop :=
  b.createdAt ≤ a.createdAt

instance : DecidableRel createdAtDesc :=
  fun a b => inferInstanceAs (Decidable (b.createdAt ≤ a.createdAt))

/-- `ORDER BY name` over the `repos` table. -/
def nameAsc (a b : DBRepo) : Prop :=
  a.name ≤ b.name

instance : DecidableRel nameAsc :=
  fun a b => inferInstanceAs (Decidable (a.name ≤ b.name))

/-- `SQLiteStore.GetVersionsByRepoID`: `SELECT * FROM versions WHERE
repo_id = ? ORDER BY created_at DESC` with an optional `LIMIT`. -/
def GetVersionsByRepoID (st : Store) (repoID : Int) (limit : Int) : List DBVersion :=
  let sorted :=
    (st.versions.filter (fun v => v.repoID == repoID)).insertionSort createdAtDesc
  if 0 < limit then sorted.take limit.toNat else sorted

/-- `SQLiteStore.GetAllRepos`: `SELECT * FROM repos ORDER BY name`. -/
def GetAllRepos (st : Store) : List DBRepo :=
  st.repos.insertionSort nameAsc

/-- `SQLiteStore.GetOlderThan3LatestUnDeletedVersions`: `SELECT * FROM
versions WHERE repo_id = ? AND deleted = 0 ORDER BY created_at DESC`,
skipping the first 3 rows. -/
def GetOlderThan3LatestUnDeletedVersions (st : Store) (repoID : Int) : List DBVersion :=
  ((st.versions.filter (fun v => v.repoID == repoID && !v.deleted)).insertionSort
    createdAtDesc).drop 3

/-- `SQLiteStore.MarkVersionAsDeleted`: `UPDATE versions SET deleted = 1
WHERE id = ?`. -/
def MarkVersionAsDeleted (st : Store) (versionID : Int) : Store :=
  { st with versions := st.versions.map (fun v =>
      if v.id == versionID then { v with deleted := true } else v) }

/-- `COALESCE(MAX(version), 0)` over `package_list_versions`. -/
def maxPLVersion (st : Store) : Int :=
  st.plVersions.foldr (fun v acc => max v.version acc) 0

/-- `SQLiteStore.IncrementPackageListVersion`: `INSERT INTO
package_list_versions (version, updated_at) SELECT COALESCE(MAX(version), 0)
+ 1, CURRENT_TIMESTAMP FROM package_list_versions`. -/
def IncrementPackageListVersion (st : Store) (now : Nat) : Store :=
  { st with
      plVersions := st.plVersions ++
        [{ id := st.nextPlId, version := maxPLVersion st + 1, updatedAt := now }],
      nextPlId := st.nextPlId + 1 }

/-- `ORDER BY id DESC LIMIT 1`: the row with the largest id. -/
def latestPLRow (st : Store) : Option DBPackageListVersion :=
  st.plVersions.foldl (fun acc v =>
    match acc with
    | none => some v
    | some w => if w.id ≤ v.id then some v else some w) none

/-- `SQLiteStore.GetLatestPackageListVersion`: returns the newest row; on
`sql.ErrNoRows` it constructs `{Version: 1, UpdatedAt: time.Now()}`, calls
`IncrementPackageListVersion`, and returns the constructed value. -/
def GetLatestPackageListVersion (st : Store) (now : Nat) :
    Store × DBPackageListVersion :=
  match latestPLRow st with
  | none => (IncrementPackageListVersion st now, { id := 0, version := 1, updatedAt := now })
  | some v => (st, v)

/-! ## Sync service (`internal/service/sync.go`) -/

/-- `git.Repo`: the configured identity of one tracked repository. -/
structure GitRepo where
  name : String
  url : String
  sync : String
  deriving Repr, DecidableEq

/-- Outcomes of the collaborator calls made during one `syncRepo` run:
`PullOrClone` (`pullErr`), `GetLatestCommit` (`commitErr`, else
`commitHash`/`tag`), and `zip.CreateZip` (`createZipErr`, consulted only
when a build is attempted). -/
structure Observation where
  pullErr : Bool
  commitErr : Bool
  commitHash : String
  tag : String
  createZipErr : Bool
  deriving Repr, DecidableEq

/-- `filepath.Join(storagePath, "zips", fileName)`. -/
def zipsPath (storagePath fileName : String) : String :=
  storagePath ++ "/zips/" ++ fileName

/-- `fmt.Sprintf("%s-%s.zip", r.Name, commitHash[:7])`. -/
def zipFileNameOf (repoName commitHash : String) : String :=
  repoName ++ "-" ++ commitHash.take 7 ++ ".zip"

/-- The retention pass at the end of `syncRepo` (sync.go lines 203-220):
fetch the not-yet-deleted rows beyond the 3 most recent; unless that list
is exactly one row with an empty tag, remove each row's zip file from disk
and mark the row deleted. -/
def runRetention (storagePath : String) (repoID : Int) (st : Store)
    (disk : List String) : Store × List String :=
  let versions := GetOlderThan3LatestUnDeletedVersions st repoID
  if versions.length == 1 && versions.head?.map DBVersion.tag == some "" then
    (st, disk)
  else
    versions.foldl (fun p v =>
      (MarkVersionAsDeleted p.1 v.id, p.2.erase (zipsPath storagePath v.zipFile)))
      (st, disk)

/-- `SyncService.syncRepo`: one repository's pipeline.  Returns the new
store state, the new disk contents, and the `changed` flag; `Except.error`
embeds the early-return error paths (which leave store and disk
untouched). -/
def syncRepo (storagePath : String) (r : GitRepo) (obs : Observation)
    (sizeOf : String → Int) (now : Nat) (st : Store) (disk : List String) :
    Except String (Store × List String × Bool) :=
  let prior := GetRepoByName st r.name
  let latestCommitHash := (prior.map DBRepo.commitHash).getD ""
  let latestTag := (prior.map DBRepo.tag).getD ""
  let lastSync := (prior.map DBRepo.lastSync).getD now
  if obs.pullErr then .error "pull or clone failed" else
  if obs.commitErr then .error "get latest commit failed" else
  let zipFileName := zipFileNameOf r.name obs.commitHash
  let zipFilePath := zipsPath storagePath zipFileName
  let zipCreated := !(disk.contains zipFilePath)
  if zipCreated && obs.createZipErr then .error "create zip failed" else
  let disk1 := if zipCreated then zipFilePath :: disk else disk
  let lastSync1 := if zipCreated then now else lastSync
  let size := sizeOf zipFilePath
  let up := UpsertRepo st
    { id := 0, name := r.name, url := r.url, sync := r.sync, tag := obs.tag,
      lastSync := lastSync1, commitHash := obs.commitHash,
      zipFile := zipFileName, size := size }
  let st2 := (AddVersion up.1
    { id := 0, repoID := up.2, tag := obs.tag, commitHash := obs.commitHash,
      zipFile := zipFileName, size := size, createdAt := lastSync1,
      deleted := false }).1
  let disk2 :=
    if latestTag == obs.tag && decide (7 ≤ latestCommitHash.length)
        && latestCommitHash != obs.commitHash then
      disk1.erase (zipsPath storagePath (zipFileNameOf r.name latestCommitHash))
    else disk1
  let ret := runRetention storagePath up.2 st2 disk2
  .ok (ret.1, ret.2, zipCreated || obs.tag != latestTag)

/-- Accumulator of the fan-out loop in `SyncAll`: the store and disk
threaded through the (mutex-serialised) pipelines, the collected errors,
and the `changed` reports of the pipelines that succeeded. -/
structure SyncLoopState where
  store : Store
  disk : List String
  errs : List String
  changedFlags : List Bool
  deriving Repr, DecidableEq

/-- The per-repository fan-out of `SyncAll`.  The goroutines' bodies are
fully serialised by `s.mu` inside `syncRepo`, so they are embedded as a
fold in one (arbitrary but fixed) completion order; a failed pipeline
contributes an aggregated error and never stops the remaining ones. -/
def syncAllLoop (storagePath : String) (sizeOf : String → Int) (now : Nat) :
    SyncLoopState → List (GitRepo × Observation) → SyncLoopState
  | s, [] => s
  | s, (r, obs) :: rest =>
    match syncRepo storagePath r obs sizeOf now s.store s.disk with
    | .error e =>
      syncAllLoop storagePath sizeOf now
        { s with errs := s.errs ++ ["failed to sync repo " ++ r.name ++ ": " ++ e] }
        rest
    | .ok (st', disk', changed) =>
      syncAllLoop storagePath sizeOf now
        { store := st', disk := disk', errs := s.errs,
          changedFlags := s.changedFlags ++ [changed] } rest

/-- What one `SyncAll` call produced: final store and disk, the aggregated
errors, the per-pipeline `changed` reports, whether the catalog version
was bumped, and whether the registered post-sync callback was invoked. -/
structure SyncAllResult where
  store : Store
  disk : List String
  errs : List String
  changedFlags : List Bool
  bumped : Bool
  callbackInvoked : Bool
  deriving Repr, DecidableEq

/-- `SyncService.SyncAll`: run every pipeline, collect errors; if any
error was collected, return the aggregated error *before* the bump; else,
if any pipeline reported changed, increment the package list version once
and invoke the callback (when one is registered). -/
def SyncAll (storagePath : String) (inputs : List (GitRepo × Observation))
    (sizeOf : String → Int) (now : Nat) (st : Store) (disk : List String)
    (callbackSet : Bool) : SyncAllResult :=
  let s := syncAllLoop storagePath sizeOf now
    { store := st, disk := disk, errs := [], changedFlags := [] } inputs
  let hasChanges := s.changedFlags.any id
  if !s.errs.isEmpty then
    { store := s.store, disk := s.disk, errs := s.errs,
      changedFlags := s.changedFlags, bumped := false, callbackInvoked := false }
  else if hasChanges then
    { store := IncrementPackageListVersion s.store now, disk := s.disk,
      errs := s.errs, changedFlags := s.changedFlags, bumped := true,
      callbackInvoked := callbackSet }
  else
    { store := s.store, disk := s.disk, errs := s.errs,
      changedFlags := s.changedFlags, bumped := false, callbackInvoked := false }

/-! ## Catalog cache and read handlers (`internal/handler/api.go`) -/

/-- `model.Version` as serialised into the cached package documents. -/
structure CachedVersion where
  file : String
  size : Int
  tag : String
  commit : String
  download : String
  updatedAt : Nat
  deriving Repr, DecidableEq

/-- `model.PackageInfo` as serialised into the cached documents. -/
structure PackageInfo where
  name : String
  url : String
  versions : List CachedVersion
  deriving Repr, DecidableEq

/-- The serialised package-list-version response. -/
structure VersionResponse where
  version : Int
  updatedAt : Nat
  deriving Repr, DecidableEq

/-- `API.cache`: `none` embeds a `nil` byte slice (never set); the
`packageInfo` association list embeds the Go map (which `NewAPI`
initialises empty and `UpdateCache` only adds to / overwrites in). -/
structure CacheState where
  packages : Option (List PackageInfo)
  version : Option VersionResponse
  packageInfo : List (String × PackageInfo)
  deriving Repr, DecidableEq

/-- The cache as `NewAPI` builds it before any successful `UpdateCache`:
nil documents and an empty map. -/
def initialCache : CacheState :=
  { packages := none, version := none, packageInfo := [] }

/-- Outcome of a read handler: a payload, or one of the error responses
the handler writes (`"Cache not initialized"`, `"package not found"`,
`"package name is required"`). -/
inductive ReadResult (α : Type) where
  | ok (a : α)
  | cacheNotInitialized
  | notFound
  | badRequest
  deriving Repr, DecidableEq

/-- `API.getDownloadURL`. -/
def getDownloadURL (baseURL fileName : String) : String :=
  baseURL ++ "/zips/" ++ fileName

/-- Go map insert-or-overwrite for the `packageInfo` cache. -/
def putPackageInfo (m : List (String × PackageInfo)) (k : String)
    (v : PackageInfo) : List (String × PackageInfo) :=
  if m.any (fun p => p.1 == k) then
    m.map (fun p => if p.1 == k then (k, v) else p)
  else m ++ [(k, v)]

/-- `API.UpdateCache`: rebuild the `packages` document from all repos and
their 3 most recent versions, overwrite the per-package entries, and
rebuild the `version` document from `GetLatestPackageListVersion` (which
may itself write to the store, hence the returned store). -/
def UpdateCache (baseURL : String) (now : Nat) (st : Store)
    (cache : CacheState) : Store × CacheState :=
  let packages := (GetAllRepos st).map (fun repo =>
    let versions := GetVersionsByRepoID st repo.id 3
    ({ name := repo.name, url := repo.url,
       versions := versions.map (fun v =>
         { file := v.zipFile, size := v.size, tag := v.tag,
           commit := v.commitHash,
           download := getDownloadURL baseURL v.zipFile,
           updatedAt := v.createdAt }) } : PackageInfo))
  let cacheInfo := packages.foldl (fun m p => putPackageInfo m p.name p)
    cache.packageInfo
  let gl := GetLatestPackageListVersion st now
  (gl.1, { packages := some packages,
           version := some { version := gl.2.version, updatedAt := gl.2.updatedAt },
           packageInfo := cacheInfo })

/-- `API.listPackages`: serve the cached `packages` document, or report
"Cache not initialized" when it is still nil. -/
def listPackages (cache : CacheState) : ReadResult (List PackageInfo) :=
  match cache.packages with
  | none => .cacheNotInitialized
  | some p => .ok p

/-- `API.getPackageVersions`: empty name is a bad request; otherwise serve
the cached per-package document, or report "package not found". -/
def getPackageVersions (cache : CacheState) (name : String) :
    ReadResult PackageInfo :=
  if name == "" then .badRequest
  else
    match cache.packageInfo.find? (fun p => p.1 == name) with
    | some p => .ok p.2
    | none => .notFound

/-- `API.getPackageListVersion`: serve the cached `version` document, or
report "Cache not initialized" when it is still nil. -/
def getPackageListVersion (cache : CacheState) : ReadResult VersionResponse :=
  match cache.version with
  | none => .cacheNotInitialized
  | some v => .ok v

/-! ## Archive writer (`pkg/zip/zip.go`) -/

/-- One entry of the source tree as visited by `filepath.Walk`, identified
by its path relative to the source root. -/
structure FSEntry where
  relPath : String
  isDir : Bool
  deriving Repr, DecidableEq

/-- `zip.ExcludePaths`. -/
def ExcludePaths : List String := [".git", ".github"]

/-- `zip.shouldExclude`: a plain `strings.HasPrefix` test of the relative
path against each exclusion entry (byte-prefix on valid UTF-8 strings is
equivalent to character-list prefix, embedded via `List.isPrefixOf`). -/
def shouldExclude (path : String) : Bool :=
  ExcludePaths.any (fun exclude => exclude.data.isPrefixOf path.data)

/-- `zip.CreateZip`, abstracted to the names archived: `filepath.Walk`
visits every entry of the tree, skips directories, skips entries whose
relative path `shouldExclude` accepts, and writes every other file into
the archive. -/
def CreateZip (tree : List FSEntry) : List String :=
  (tree.filter (fun e => !e.isDir && !shouldExclude e.relPath)).map FSEntry.relPath

/-! ## Store-operation sequences (for catalog-version monotonicity) -/

/-- One mutating call of the `SQLiteStore` API (`GetLatestPackageListVersion`
is included because it writes on first read). -/
inductive StoreOp where
  | upsert (r : DBRepo)
  | add (v : DBVersion)
  | mark (versionID : Int)
  | increment (now : Nat)
  | getLatest (now : Nat)
  deriving Repr

/-- Apply one store operation to the state. -/
def applyOp (st : Store) : StoreOp → Store
  | .upsert r => (UpsertRepo st r).1
  | .add v => (AddVersion st v).1
  | .mark vid => MarkVersionAsDeleted st vid
  | .increment now => IncrementPackageListVersion st now
  | .getLatest now => (GetLatestPackageListVersion st now).1

/-- Apply a sequence of store operations. -/
def applyOps (st : Store) (ops : List StoreOp) : Store :=
  ops.foldl applyOp st

/-- The persisted catalog version: the maximum `version` over
`package_list_versions`, 0 when the table is empty (what
`COALESCE(MAX(version), 0)` reads). -/
def catalogVersion (st : Store) : Int :=
  maxPLVersion st

/-! ## Helper lemmas -/

theorem plVersions_UpsertRepo (st : Store) (r : DBRepo) :
    (UpsertRepo st r).1.plVersions = st.plVersions := by
  cases h : st.repos.find? (fun w => w.name == r.name) <;> simp [UpsertRepo, h]

theorem plVersions_AddVersion (st : Store) (v : DBVersion) :
    (AddVersion st v).1.plVersions = st.plVersions := by
  cases h : st.versions.find? (fun w => w.repoID == v.repoID && w.tag == v.tag) <;>
    simp [AddVersion, h]

theorem plVersions_MarkVersionAsDeleted (st : Store) (vid : Int) :
    (MarkVersionAsDeleted st vid).plVersions = st.plVersions := rfl

theorem runRetention_foldl (storagePath : String) (vs : List DBVersion)
    (st : Store) (disk : List String) :
    vs.foldl (fun p v =>
        (MarkVersionAsDeleted p.1 v.id, p.2.erase (zipsPath storagePath v.zipFile)))
      (st, disk) =
    (vs.foldl (fun s v => MarkVersionAsDeleted s v.id) st,
     vs.foldl (fun d v => d.erase (zipsPath storagePath v.zipFile)) disk) := by
  induction vs generalizing st disk with
  | nil => rfl
  | cons v vs ih =>
    simp only [List.foldl_cons]
    exact ih _ _

theorem plVersions_markFold (vs : List DBVersion) (st : Store) :
    (vs.foldl (fun s v => MarkVersionAsDeleted s v.id) st).plVersions =
      st.plVersions := by
  induction vs generalizing st with
  | nil => rfl
  | cons v vs ih =>
    simp only [List.foldl_cons]
    exact ih _

theorem plVersions_runRetention (storagePath : String) (repoID : Int)
    (st : Store) (disk : List String) :
    (runRetention storagePath repoID st disk).1.plVersions = st.plVersions := by
  simp only [runRetention]
  split
  · rfl
  · rw [runRetention_foldl]
    exact plVersions_markFold _ _

theorem eraseFold_subset (vs : List DBVersion) (storagePath : String)
    (disk : List String) :
    ∀ x ∈ vs.foldl (fun d v => d.erase (zipsPath storagePath v.zipFile)) disk,
      x ∈ disk := by
  induction vs generalizing disk with
  | nil => simp
  | cons v vs ih =>
    intro x hx
    simp only [List.foldl_cons] at hx
    exact List.erase_subset _ _ (ih _ x hx)

theorem disk_runRetention_subset (storagePath : String) (repoID : Int)
    (st : Store) (disk : List String) :
    ∀ x ∈ (runRetention storagePath repoID st disk).2, x ∈ disk := by
  simp only [runRetention]
  split
  · simp
  · rw [runRetention_foldl]
    exact eraseFold_subset _ _ _

theorem syncRepo_ok_plVersions (storagePath : String) (r : GitRepo)
    (obs : Observation) (sizeOf : String → Int) (now : Nat) (st : Store)
    (disk : List String) (st' : Store) (disk' : List String) (changed : Bool)
    (h : syncRepo storagePath r obs sizeOf now st disk = .ok (st', disk', changed)) :
    st'.plVersions = st.plVersions := by
  simp only [syncRepo] at h
  split at h
  · exact Except.noConfusion h
  split at h
  · exact Except.noConfusion h
  split at h
  · exact Except.noConfusion h
  simp only [Except.ok.injEq, Prod.mk.injEq] at h
  obtain ⟨hst, -, -⟩ := h
  rw [← hst, plVersions_runRetention, plVersions_AddVersion, plVersions_UpsertRepo]

theorem plVersions_syncAllLoop (storagePath : String) (sizeOf : String → Int)
    (now : Nat) (s : SyncLoopState) (inputs : List (GitRepo × Observation)) :
    (syncAllLoop storagePath sizeOf now s inputs).store.plVersions =
      s.store.plVersions := by
  induction inputs generalizing s with
  | nil => rfl
  | cons p rest ih =>
    obtain ⟨r, obs⟩ := p
    cases h : syncRepo storagePath r obs sizeOf now s.store s.disk with
    | error e =>
      simp only [syncAllLoop, h]
      rw [ih]
    | ok out =>
      obtain ⟨st', d', c⟩ := out
      simp only [syncAllLoop, h]
      rw [ih]
      exact syncRepo_ok_plVersions _ _ _ _ _ _ _ _ _ _ h

theorem syncAllLoop_counts (storagePath : String) (sizeOf : String → Int)
    (now : Nat) (s : SyncLoopState) (inputs : List (GitRepo × Observation)) :
    (syncAllLoop storagePath sizeOf now s inputs).changedFlags.length +
      (syncAllLoop storagePath sizeOf now s inputs).errs.length =
    s.changedFlags.length + s.errs.length + inputs.length := by
  induction inputs generalizing s with
  | nil => simp [syncAllLoop]
  | cons p rest ih =>
    obtain ⟨r, obs⟩ := p
    cases h : syncRepo storagePath r obs sizeOf now s.store s.disk with
    | error e =>
      simp only [syncAllLoop, h]
      rw [ih]
      simp
      omega
    | ok out =>
      obtain ⟨st', d', c⟩ := out
      simp only [syncAllLoop, h]
      rw [ih]
      simp
      omega

theorem repos_AddVersion (st : Store) (v : DBVersion) :
    (AddVersion st v).1.repos = st.repos := by
  cases h : st.versions.find? (fun w => w.repoID == v.repoID && w.tag == v.tag) <;>
    simp [AddVersion, h]

theorem repos_markFold (vs : List DBVersion) (st : Store) :
    (vs.foldl (fun s v => MarkVersionAsDeleted s v.id) st).repos = st.repos := by
  induction vs generalizing st with
  | nil => rfl
  | cons v vs ih =>
    simp only [List.foldl_cons]
    exact ih _

theorem repos_runRetention (storagePath : String) (repoID : Int) (st : Store)
    (disk : List String) :
    (runRetention storagePath repoID st disk).1.repos = st.repos := by
  simp only [runRetention]
  split
  · rfl
  · rw [runRetention_foldl]
    exact repos_markFold _ _

theorem GetRepoByName_UpsertRepo (st : Store) (r : DBRepo) :
    ∃ u, GetRepoByName (UpsertRepo st r).1 r.name = some u ∧
      u.id = (UpsertRepo st r).2 ∧ u.name = r.name ∧ u.tag = r.tag ∧
      u.lastSync = r.lastSync ∧ u.commitHash = r.commitHash ∧
      u.zipFile = r.zipFile ∧ u.size = r.size := by
  cases h : st.repos.find? (fun w => w.name == r.name) with
  | none =>
    refine ⟨{ r with id := st.nextRepoId }, ?_, ?_, rfl, rfl, rfl, rfl, rfl, rfl⟩
    · show ((UpsertRepo st r).1.repos).find? (fun w => w.name == r.name) = _
      simp only [UpsertRepo, h]
      rw [List.find?_append, h, Option.none_or]
      simp [List.find?_cons]
    · simp [UpsertRepo, h]
  | some w =>
    have hw := List.find?_some h
    have hweq : w.name = r.name := by simpa using hw
    refine ⟨{ w with
        tag := r.tag
        lastSync := r.lastSync
        commitHash := r.commitHash
        zipFile := r.zipFile
        size := r.size },
      ?_, ?_, hweq, rfl, rfl, rfl, rfl, rfl⟩
    · show ((UpsertRepo st r).1.repos).find? (fun w' => w'.name == r.name) = _
      simp only [UpsertRepo, h]
      rw [List.find?_map]
      have hp : ((fun w' : DBRepo => w'.name == r.name) ∘
          (fun u : DBRepo => if u.name == r.name then
            { u with
              tag := r.tag
              lastSync := r.lastSync
              commitHash := r.commitHash
              zipFile := r.zipFile
              size := r.size }
          else u)) = (fun w' : DBRepo => w'.name == r.name) := by
        funext u
        by_cases hu : u.name = r.name <;> simp [hu]
      rw [hp, h]
      simp [hweq]
    · simp [UpsertRepo, h]

theorem GetRepoByName_AddVersion (st : Store) (v : DBVersion) (n : String) :
    GetRepoByName (AddVersion st v).1 n = GetRepoByName st n := by
  unfold GetRepoByName
  rw [repos_AddVersion]

theorem GetRepoByName_runRetention (storagePath : String) (repoID : Int)
    (st : Store) (disk : List String) (n : String) :
    GetRepoByName (runRetention storagePath repoID st disk).1 n =
      GetRepoByName st n := by
  unfold GetRepoByName
  rw [repos_runRetention]

theorem catalogVersion_eq_of_pl {st₁ st₂ : Store}
    (h : st₁.plVersions = st₂.plVersions) :
    catalogVersion st₁ = catalogVersion st₂ := by
  unfold catalogVersion maxPLVersion
  rw [h]

theorem maxPLVersion_nonneg (st : Store) : 0 ≤ maxPLVersion st := by
  unfold maxPLVersion
  induction st.plVersions with
  | nil => simp
  | cons v l ih =>
    simp only [List.foldr_cons]
    exact le_trans ih (le_max_right _ _)

theorem foldrMax_base (l : List DBPackageListVersion) (b : Int) (hb : 0 ≤ b) :
    l.foldr (fun v acc => max v.version acc) b =
      max (l.foldr (fun v acc => max v.version acc) 0) b := by
  induction l with
  | nil => simp [max_eq_right hb]
  | cons v l ih => simp only [List.foldr_cons, ih, max_assoc]

theorem foldrMax_append (l : List DBPackageListVersion) (x : DBPackageListVersion) :
    (l ++ [x]).foldr (fun v acc => max v.version acc) 0 =
      max (l.foldr (fun v acc => max v.version acc) 0) (max x.version 0) := by
  rw [List.foldr_append]
  simp only [List.foldr_cons, List.foldr_nil]
  exact foldrMax_base l _ (le_max_right _ _)

theorem catalogVersion_increment (st : Store) (now : Nat) :
    catalogVersion (IncrementPackageListVersion st now) = catalogVersion st + 1 := by
  have h0 : (0 : Int) ≤ maxPLVersion st := maxPLVersion_nonneg st
  have key : catalogVersion (IncrementPackageListVersion st now) =
      max (maxPLVersion st) (max (maxPLVersion st + 1) 0) :=
    foldrMax_append st.plVersions ⟨st.nextPlId, maxPLVersion st + 1, now⟩
  rw [key,
    show (maxPLVersion st + 1) ⊔ (0 : Int) = maxPLVersion st + 1 from
      max_eq_left (by linarith),
    max_eq_right (by linarith)]
  rfl

theorem catalogVersion_applyOp (st : Store) (op : StoreOp) :
    catalogVersion st ≤ catalogVersion (applyOp st op) := by
  cases op with
  | upsert r =>
    exact le_of_eq (catalogVersion_eq_of_pl (plVersions_UpsertRepo st r).symm)
  | add v =>
    exact le_of_eq (catalogVersion_eq_of_pl (plVersions_AddVersion st v).symm)
  | mark vid =>
    exact le_of_eq (catalogVersion_eq_of_pl rfl)
  | increment now =>
    rw [show applyOp st (.increment now) = IncrementPackageListVersion st now from rfl,
      catalogVersion_increment]
    linarith
  | getLatest now =>
    show catalogVersion st ≤ catalogVersion (GetLatestPackageListVersion st now).1
    unfold GetLatestPackageListVersion
    cases h : latestPLRow st with
    | none =>
      simp only
      rw [catalogVersion_increment]
      linarith
    | some v => simp only; exact le_refl _

/-- C5: every catalog-version bump raises the persisted maximum by exactly
1 (from 0 when no record exists), and no store operation ever decreases
the catalog version. -/
theorem catalogVersion_bump_exact_and_monotone (st : Store) (now : Nat)
    (ops : List StoreOp) :
    catalogVersion (IncrementPackageListVersion st now) = catalogVersion st + 1 ∧
    catalogVersion st ≤ catalogVersion (applyOps st ops) := by
  refine ⟨catalogVersion_increment st now, ?_⟩
  induction ops generalizing st with
  | nil => exact le_refl _
  | cons op rest ih =>
    calc catalogVersion st ≤ catalogVersion (applyOp st op) :=
          catalogVersion_applyOp st op
      _ ≤ catalogVersion (applyOps (applyOp st op) rest) := ih _
      _ = catalogVersion (applyOps st (op :: rest)) := rfl

/-- C6: when no catalog-version record exists, `GetLatestPackageListVersion`
returns version 1 with the current timestamp and durably writes version 1
as the first bump. -/
theorem getLatestPLV_lazy_init (st : Store) (now : Nat)
    (h : st.plVersions = []) :
    (GetLatestPackageListVersion st now).2.version = 1 ∧
    (GetLatestPackageListVersion st now).2.updatedAt = now ∧
    (GetLatestPackageListVersion st now).1.plVersions.map
      DBPackageListVersion.version = [1] := by
  have hrow : latestPLRow st = none := by
    unfold latestPLRow
    rw [h]
    rfl
  unfold GetLatestPackageListVersion
  rw [hrow]
  refine ⟨rfl, rfl, ?_⟩
  show (IncrementPackageListVersion st now).plVersions.map _ = _
  unfold IncrementPackageListVersion maxPLVersion
  rw [h]
  rfl

theorem getLatestPLV_lazy_init_witness :
    (⟨[], [], [], 1, 1, 1⟩ : Store).plVersions = [] ∧
    ((GetLatestPackageListVersion ⟨[], [], [], 1, 1, 1⟩ 42).2.version = 1 ∧
     (GetLatestPackageListVersion ⟨[], [], [], 1, 1, 1⟩ 42).2.updatedAt = 42 ∧
     (GetLatestPackageListVersion ⟨[], [], [], 1, 1, 1⟩ 42).1.plVersions.map
       DBPackageListVersion.version = [1]) :=
  ⟨rfl, getLatestPLV_lazy_init ⟨[], [], [], 1, 1, 1⟩ 42 rfl⟩

/-- C10: `CreateZip` archives exactly the non-directory entries whose
relative path does not begin with `".git"` or `".github"`; in particular
`.gitignore` and `.gitattributes` at the repository root are omitted. -/
theorem CreateZip_exact (tree : List FSEntry) :
    (∀ p, p ∈ CreateZip tree ↔
      ∃ e, e ∈ tree ∧ e.isDir = false ∧ e.relPath = p ∧
        ".git".data.isPrefixOf p.data = false ∧
        ".github".data.isPrefixOf p.data = false) ∧
    ".gitignore" ∉ CreateZip tree ∧ ".gitattributes" ∉ CreateZip tree := by
  have hiff : ∀ p, p ∈ CreateZip tree ↔
      ∃ e, e ∈ tree ∧ e.isDir = false ∧ e.relPath = p ∧
        ".git".data.isPrefixOf p.data = false ∧
        ".github".data.isPrefixOf p.data = false := by
    intro p
    unfold CreateZip shouldExclude ExcludePaths
    simp only [List.mem_map, List.mem_filter, List.any_cons, List.any_nil,
      Bool.or_false, Bool.and_eq_true, Bool.not_eq_true', Bool.or_eq_false_iff]
    constructor
    · rintro ⟨e, ⟨he, hd, hg, hh⟩, hp⟩
      exact ⟨e, he, hd, hp, hp ▸ hg, hp ▸ hh⟩
    · rintro ⟨e, he, hd, hp, hg, hh⟩
      exact ⟨e, ⟨he, hd, hp ▸ hg, hp ▸ hh⟩, hp⟩
  refine ⟨hiff, ?_, ?_⟩
  · intro h
    obtain ⟨e, -, -, -, hg, -⟩ := (hiff _).mp h
    have ht : ".git".data.isPrefixOf ".gitignore".data = true := by decide
    exact Bool.noConfusion (ht.symm.trans hg)
  · intro h
    obtain ⟨e, -, -, -, hg, -⟩ := (hiff _).mp h
    have ht : ".git".data.isPrefixOf ".gitattributes".data = true := by decide
    exact Bool.noConfusion (ht.symm.trans hg)

/-- C1 (amended): in every `SyncAll` batch each pipeline contributes
exactly one changed-report or one aggregated error (failures never abort
siblings); the catalog version is bumped — by exactly one, once for the
whole batch — and the callback invoked exactly when *no* pipeline failed
and at least one reported changed; any collected failure makes `SyncAll`
return the aggregated error before the bump, so the bump and callback are
skipped. -/
theorem syncAll_bump_once_no_failures (storagePath : String)
    (inputs : List (GitRepo × Observation)) (sizeOf : String → Int) (now : Nat)
    (st : Store) (disk : List String) (callbackSet : Bool) :
    (SyncAll storagePath inputs sizeOf now st disk callbackSet).changedFlags.length +
      (SyncAll storagePath inputs sizeOf now st disk callbackSet).errs.length =
      inputs.length ∧
    (SyncAll storagePath inputs sizeOf now st disk callbackSet).bumped =
      ((SyncAll storagePath inputs sizeOf now st disk callbackSet).errs.isEmpty &&
       (SyncAll storagePath inputs sizeOf now st disk callbackSet).changedFlags.any id) ∧
    (SyncAll storagePath inputs sizeOf now st disk callbackSet).callbackInvoked =
      ((SyncAll storagePath inputs sizeOf now st disk callbackSet).errs.isEmpty &&
       (SyncAll storagePath inputs sizeOf now st disk callbackSet).changedFlags.any id &&
       callbackSet) ∧
    catalogVersion (SyncAll storagePath inputs sizeOf now st disk callbackSet).store =
      catalogVersion st +
        (if (SyncAll storagePath inputs sizeOf now st disk callbackSet).bumped
         then 1 else 0) ∧
    (SyncAll storagePath inputs sizeOf now st disk callbackSet).store.plVersions.length =
      st.plVersions.length +
        (if (SyncAll storagePath inputs sizeOf now st disk callbackSet).bumped
         then 1 else 0) := by
  have hpl : (syncAllLoop storagePath sizeOf now
      { store := st, disk := disk, errs := [], changedFlags := [] }
      inputs).store.plVersions = st.plVersions :=
    plVersions_syncAllLoop storagePath sizeOf now _ inputs
  have hcnt := syncAllLoop_counts storagePath sizeOf now
    { store := st, disk := disk, errs := [], changedFlags := [] } inputs
  simp only [List.length_nil, Nat.zero_add, Nat.add_zero] at hcnt
  have hcat : catalogVersion (syncAllLoop storagePath sizeOf now
      { store := st, disk := disk, errs := [], changedFlags := [] }
      inputs).store = catalogVersion st := catalogVersion_eq_of_pl hpl
  have hinc := catalogVersion_increment (syncAllLoop storagePath sizeOf now
    { store := st, disk := disk, errs := [], changedFlags := [] } inputs).store now
  have hlen : (IncrementPackageListVersion (syncAllLoop storagePath sizeOf now
      { store := st, disk := disk, errs := [], changedFlags := [] }
      inputs).store now).plVersions.length = st.plVersions.length + 1 := by
    simp [IncrementPackageListVersion, hpl]
  unfold SyncAll
  cases he : (syncAllLoop storagePath sizeOf now
      { store := st, disk := disk, errs := [], changedFlags := [] }
      inputs).errs.isEmpty with
  | false =>
    simp [he, hcnt, hcat, hpl]
  | true =>
    cases hc : (syncAllLoop storagePath sizeOf now
        { store := st, disk := disk, errs := [], changedFlags := [] }
        inputs).changedFlags.any id with
    | false => simp [he, hc, hcnt, hcat, hpl]
    | true => simp [he, hc, hcnt, hcat, hinc, hlen]

/-- C1 counterexample: a batch in which repo B's pipeline reports changed
while repo A's pipeline fails; `SyncAll` aggregates A's error but performs
no catalog bump and no callback, so a sibling failure does suppress the
bump, contrary to the claim. -/
theorem syncAll_failed_sibling_suppresses_bump :
    (SyncAll "/s"
      [(⟨"A", "u", "m"⟩, ⟨true, false, "", "", false⟩),
       (⟨"B", "u", "m"⟩, ⟨false, false, "b1b2b3b4c", "v1", false⟩)]
      (fun _ => 10) 100 ⟨[], [], [], 1, 1, 1⟩ [] true).changedFlags = [true] ∧
    (SyncAll "/s"
      [(⟨"A", "u", "m"⟩, ⟨true, false, "", "", false⟩),
       (⟨"B", "u", "m"⟩, ⟨false, false, "b1b2b3b4c", "v1", false⟩)]
      (fun _ => 10) 100 ⟨[], [], [], 1, 1, 1⟩ [] true).errs ≠ [] ∧
    (SyncAll "/s"
      [(⟨"A", "u", "m"⟩, ⟨true, false, "", "", false⟩),
       (⟨"B", "u", "m"⟩, ⟨false, false, "b1b2b3b4c", "v1", false⟩)]
      (fun _ => 10) 100 ⟨[], [], [], 1, 1, 1⟩ [] true).bumped = false ∧
    (SyncAll "/s"
      [(⟨"A", "u", "m"⟩, ⟨true, false, "", "", false⟩),
       (⟨"B", "u", "m"⟩, ⟨false, false, "b1b2b3b4c", "v1", false⟩)]
      (fun _ => 10) 100 ⟨[], [], [], 1, 1, 1⟩ [] true).callbackInvoked = false ∧
    (SyncAll "/s"
      [(⟨"A", "u", "m"⟩, ⟨true, false, "", "", false⟩),
       (⟨"B", "u", "m"⟩, ⟨false, false, "b1b2b3b4c", "v1", false⟩)]
      (fun _ => 10) 100 ⟨[], [], [], 1, 1, 1⟩ [] true).store.plVersions = [] := by
  refine ⟨by decide, by decide, by decide, by decide, by decide⟩

/-- C7: a per-repository pipeline run that completes without error reports
changed exactly when the artifact file was built in that run (its path was
not already on disk) or the observed tag differs from the previously
recorded tag — so a tag change alone, with the file already present, makes
the run report changed. -/
theorem syncRepo_changed_iff (storagePath : String) (r : GitRepo)
    (obs : Observation) (sizeOf : String → Int) (now : Nat) (st : Store)
    (disk : List String) :
    Except.map (fun out => out.2.2)
      (syncRepo storagePath r obs sizeOf now st disk) =
    Except.map (fun _ =>
        (!(disk.contains (zipsPath storagePath (zipFileNameOf r.name obs.commitHash))) ||
          obs.tag != ((GetRepoByName st r.name).map DBRepo.tag).getD ""))
      (syncRepo storagePath r obs sizeOf now st disk) := by
  simp only [syncRepo]
  split
  · rfl
  split
  · rfl
  split
  · rfl
  rfl

/-- C9: a successful pipeline run only ever adds the artifact file
`<repoName>-<first7CharsOfCommit>.zip` under the `zips` root of the
storage path to disk, and records exactly that file name in the
repository's metadata row. -/
theorem syncRepo_artifact_naming (storagePath : String) (r : GitRepo)
    (obs : Observation) (sizeOf : String → Int) (now : Nat) (st : Store)
    (disk : List String) :
    Except.map (fun out =>
        (out.2.1.all (fun f => disk.contains f ||
           f == storagePath ++ "/zips/" ++ (r.name ++ "-" ++ obs.commitHash.take 7 ++ ".zip")),
         (GetRepoByName out.1 r.name).map DBRepo.zipFile))
      (syncRepo storagePath r obs sizeOf now st disk) =
    Except.map (fun _ =>
        (true, some (r.name ++ "-" ++ obs.commitHash.take 7 ++ ".zip")))
      (syncRepo storagePath r obs sizeOf now st disk) := by
  simp only [syncRepo]
  split
  · rfl
  split
  · rfl
  split
  · rfl
  simp only [Except.map, Except.ok.injEq, Prod.mk.injEq]
  constructor
  · -- every file on the final disk was on the input disk or is the artifact
    rw [List.all_eq_true]
    intro f hf
    have hf2 := disk_runRetention_subset storagePath _ _ _ f hf
    have hf1 : f ∈ (if ((GetRepoByName st r.name).map DBRepo.tag).getD "" == obs.tag &&
        decide (7 ≤ (((GetRepoByName st r.name).map DBRepo.commitHash).getD "").length) &&
        ((GetRepoByName st r.name).map DBRepo.commitHash).getD "" != obs.commitHash then
          _ else _) := hf2
    have hf0 : f ∈ (if !(disk.contains (zipsPath storagePath (zipFileNameOf r.name obs.commitHash))) then
        zipsPath storagePath (zipFileNameOf r.name obs.commitHash) :: disk else disk) := by
      revert hf1
      split
      · intro hf1
        exact List.erase_subset _ _ hf1
      · exact id
    rcases (by
      revert hf0
      split
      · intro hf0
        rcases List.mem_cons.mp hf0 with h1 | h2
        · exact Or.inr h1
        · exact Or.inl h2
      · exact fun hf0 => Or.inl hf0 :
        f ∈ disk ∨ f = zipsPath storagePath (zipFileNameOf r.name obs.commitHash)) with
      h1 | h2
    · have hc : disk.contains f = true := List.elem_eq_true_of_mem h1
      rw [hc, Bool.true_or]
    · have hb : (f == storagePath ++ "/zips/" ++
          (r.name ++ "-" ++ obs.commitHash.take 7 ++ ".zip")) = true := by
        rw [h2]
        exact beq_self_eq_true _
      rw [hb, Bool.or_true]
  · -- the recorded zip file name is the artifact name
    obtain ⟨u, hu, -, -, -, -, -, hz, -⟩ := GetRepoByName_UpsertRepo st
      { id := 0, name := r.name, url := r.url, sync := r.sync, tag := obs.tag,
        lastSync := if !(disk.contains (zipsPath storagePath (zipFileNameOf r.name obs.commitHash)))
          then now else ((GetRepoByName st r.name).map DBRepo.lastSync).getD now,
        commitHash := obs.commitHash,
        zipFile := zipFileNameOf r.name obs.commitHash,
        size := sizeOf (zipsPath storagePath (zipFileNameOf r.name obs.commitHash)) }
    rw [GetRepoByName_runRetention, GetRepoByName_AddVersion, hu]
    simp [hz, zipFileNameOf]

theorem keys_putPackageInfo (m : List (String × PackageInfo)) (k : String)
    (v : PackageInfo) (q : String × PackageInfo)
    (hq : q ∈ putPackageInfo m k v) :
    q.1 = k ∨ q.1 ∈ m.map Prod.fst := by
  unfold putPackageInfo at hq
  split at hq
  · obtain ⟨p, hp, hpq⟩ := List.mem_map.mp hq
    by_cases hb : p.1 = k
    · simp only [hb, beq_self_eq_true, if_true] at hpq
      left
      rw [← hpq]
    · have : (p.1 == k) = false := by simp [hb]
      simp only [this, Bool.false_eq_true, if_false] at hpq
      right
      rw [← hpq]
      exact List.mem_map_of_mem _ hp
  · rcases List.mem_append.mp hq with h1 | h2
    · right
      exact List.mem_map_of_mem _ h1
    · left
      rw [List.mem_singleton.mp h2]

theorem keys_packageInfoFold (ps : List PackageInfo)
    (m : List (String × PackageInfo)) (q : String × PackageInfo)
    (hq : q ∈ ps.foldl (fun m p => putPackageInfo m p.name p) m) :
    q.1 ∈ ps.map PackageInfo.name ∨ q.1 ∈ m.map Prod.fst := by
  induction ps generalizing m with
  | nil =>
    right
    simp only [List.foldl_nil] at hq
    exact List.mem_map_of_mem _ hq
  | cons p ps ih =>
    simp only [List.foldl_cons] at hq
    rcases ih _ hq with h1 | h2
    · left
      simp [h1]
    · obtain ⟨q', hq', hkeyeq⟩ := List.mem_map.mp h2
      rcases keys_putPackageInfo m p.name p q' hq' with h3 | h4
      · left
        simp [← hkeyeq, h3]
      · right
        rw [← hkeyeq]
        exact h4

/-- C8 (amended): before any successful rebuild, `listPackages` and
`getPackageListVersion` report the cache-not-initialized condition, but
`getPackageVersions` reports "package not found" for any nonempty name
(it cannot distinguish an uninitialized cache from an absent package);
after a rebuild of the initial cache, `getPackageVersions` on a nonempty
name matching no repository still reports "package not found". -/
theorem cache_reads_uninitialized_and_absent (st : Store) (baseURL : String)
    (now : Nat) (name : String) (hname : name ≠ "")
    (habsent : ∀ rp ∈ st.repos, rp.name ≠ name) :
    listPackages initialCache = .cacheNotInitialized ∧
    getPackageListVersion initialCache = .cacheNotInitialized ∧
    getPackageVersions initialCache name = .notFound ∧
    getPackageVersions (UpdateCache baseURL now st initialCache).2 name = .notFound := by
  refine ⟨rfl, rfl, ?_, ?_⟩
  · simp [getPackageVersions, initialCache, hname]
  · have hnone : ((UpdateCache baseURL now st initialCache).2.packageInfo.find?
        (fun p => p.1 == name)) = none := by
      rw [List.find?_eq_none]
      intro q hq
      have hkey := keys_packageInfoFold _ _ q (by simpa [UpdateCache, initialCache] using hq)
      simp only [List.map_nil, List.not_mem_nil, or_false] at hkey
      obtain ⟨pk, hpk, hpkq⟩ := List.mem_map.mp hkey
      obtain ⟨rp, hrp, hrpq⟩ := List.mem_map.mp hpk
      have hrp2 : rp ∈ st.repos :=
        (List.perm_insertionSort nameAsc st.repos).mem_iff.mp hrp
      have : q.1 = rp.name := by
        rw [← hpkq, ← hrpq]
      simp [this, habsent rp hrp2]
    simp [getPackageVersions, hname, hnone]

theorem cache_reads_uninitialized_and_absent_witness :
    ("x" ≠ "" ∧ ∀ rp ∈ (⟨[], [], [], 1, 1, 1⟩ : Store).repos, rp.name ≠ "x") ∧
    (listPackages initialCache = .cacheNotInitialized ∧
     getPackageListVersion initialCache = .cacheNotInitialized ∧
     getPackageVersions initialCache "x" = .notFound ∧
     getPackageVersions
       (UpdateCache "b" 0 (⟨[], [], [], 1, 1, 1⟩ : Store) initialCache).2 "x" =
       .notFound) :=
  ⟨⟨by decide, by decide⟩,
   cache_reads_uninitialized_and_absent ⟨[], [], [], 1, 1, 1⟩ "b" 0 "x"
     (by decide) (by decide)⟩

/-- C8 counterexample: before any rebuild, `getPackageVersions` returns
"package not found", not the claimed cache-not-initialized condition. -/
theorem getPackage_uninitialized_not_found :
    getPackageVersions initialCache "x" = ReadResult.notFound ∧
    getPackageVersions initialCache "x" ≠ ReadResult.cacheNotInitialized := by
  refine ⟨by decide, by decide⟩

theorem versions_UpsertRepo (st : Store) (r : DBRepo) :
    (UpsertRepo st r).1.versions = st.versions := by
  cases h : st.repos.find? (fun w => w.name == r.name) <;> simp [UpsertRepo, h]

theorem versionsLength_MarkVersionAsDeleted (st : Store) (vid : Int) :
    (MarkVersionAsDeleted st vid).versions.length = st.versions.length := by
  simp [MarkVersionAsDeleted]

theorem versionsLength_markFold (vs : List DBVersion) (st : Store) :
    (vs.foldl (fun s v => MarkVersionAsDeleted s v.id) st).versions.length =
      st.versions.length := by
  induction vs generalizing st with
  | nil => rfl
  | cons v vs ih =>
    simp only [List.foldl_cons]
    rw [ih, versionsLength_MarkVersionAsDeleted]

theorem versionsLength_runRetention (storagePath : String) (repoID : Int)
    (st : Store) (disk : List String) :
    (runRetention storagePath repoID st disk).1.versions.length =
      st.versions.length := by
  simp only [runRetention]
  split
  · rfl
  · rw [runRetention_foldl]
    exact versionsLength_markFold _ _

theorem versionsLength_AddVersion_update (st : Store) (v : DBVersion)
    (h : (st.versions.find? (fun w => w.repoID == v.repoID && w.tag == v.tag)).isSome) :
    (AddVersion st v).1.versions.length = st.versions.length := by
  obtain ⟨w, hw⟩ := Option.isSome_iff_exists.mp h
  simp [AddVersion, hw]

/-- C3: re-running the pipeline with the commit and tag unchanged since
the last successful sync (the metadata row matches the observation, the
artifact file is on disk, and the (repoId, tag) version row exists) is
idempotent — it succeeds reporting no change, adds no version row, adds no
file to disk, and leaves the catalog version table untouched. -/
theorem syncRepo_idempotent (storagePath : String) (r : GitRepo)
    (obs : Observation) (sizeOf : String → Int) (now : Nat) (st : Store)
    (disk : List String) (db : DBRepo)
    (hrepo : GetRepoByName st r.name = some db)
    (hcommit : db.commitHash = obs.commitHash)
    (htag : db.tag = obs.tag)
    (hdisk : zipsPath storagePath (zipFileNameOf r.name obs.commitHash) ∈ disk)
    (hver : (st.versions.find? (fun w => w.repoID == db.id && w.tag == obs.tag)).isSome)
    (hpull : obs.pullErr = false) (hcerr : obs.commitErr = false) :
    ∃ st' disk', syncRepo storagePath r obs sizeOf now st disk = .ok (st', disk', false) ∧
      st'.versions.length = st.versions.length ∧
      (∀ f ∈ disk', f ∈ disk) ∧
      st'.plVersions = st.plVersions := by
  have hfind : st.repos.find? (fun w => w.name == r.name) = some db := hrepo
  have hc : disk.contains (zipsPath storagePath (zipFileNameOf r.name obs.commitHash)) = true :=
    List.elem_eq_true_of_mem hdisk
  have main : syncRepo storagePath r obs sizeOf now st disk =
      .ok ((runRetention storagePath
            (UpsertRepo st
              { id := 0, name := r.name, url := r.url, sync := r.sync, tag := obs.tag,
                lastSync := db.lastSync, commitHash := obs.commitHash,
                zipFile := zipFileNameOf r.name obs.commitHash,
                size := sizeOf (zipsPath storagePath (zipFileNameOf r.name obs.commitHash)) }).2
            (AddVersion (UpsertRepo st
              { id := 0, name := r.name, url := r.url, sync := r.sync, tag := obs.tag,
                lastSync := db.lastSync, commitHash := obs.commitHash,
                zipFile := zipFileNameOf r.name obs.commitHash,
                size := sizeOf (zipsPath storagePath (zipFileNameOf r.name obs.commitHash)) }).1
              { id := 0,
                repoID := (UpsertRepo st
                  { id := 0, name := r.name, url := r.url, sync := r.sync, tag := obs.tag,
                    lastSync := db.lastSync, commitHash := obs.commitHash,
                    zipFile := zipFileNameOf r.name obs.commitHash,
                    size := sizeOf (zipsPath storagePath (zipFileNameOf r.name obs.commitHash)) }).2,
                tag := obs.tag, commitHash := obs.commitHash,
                zipFile := zipFileNameOf r.name obs.commitHash,
                size := sizeOf (zipsPath storagePath (zipFileNameOf r.name obs.commitHash)),
                createdAt := db.lastSync, deleted := false }).1
            disk).1,
          (runRetention storagePath
            (UpsertRepo st
              { id := 0, name := r.name, url := r.url, sync := r.sync, tag := obs.tag,
                lastSync := db.lastSync, commitHash := obs.commitHash,
                zipFile := zipFileNameOf r.name obs.commitHash,
                size := sizeOf (zipsPath storagePath (zipFileNameOf r.name obs.commitHash)) }).2
            (AddVersion (UpsertRepo st
              { id := 0, name := r.name, url := r.url, sync := r.sync, tag := obs.tag,
                lastSync := db.lastSync, commitHash := obs.commitHash,
                zipFile := zipFileNameOf r.name obs.commitHash,
                size := sizeOf (zipsPath storagePath (zipFileNameOf r.name obs.commitHash)) }).1
              { id := 0,
                repoID := (UpsertRepo st
                  { id := 0, name := r.name, url := r.url, sync := r.sync, tag := obs.tag,
                    lastSync := db.lastSync, commitHash := obs.commitHash,
                    zipFile := zipFileNameOf r.name obs.commitHash,
                    size := sizeOf (zipsPath storagePath (zipFileNameOf r.name obs.commitHash)) }).2,
                tag := obs.tag, commitHash := obs.commitHash,
                zipFile := zipFileNameOf r.name obs.commitHash,
                size := sizeOf (zipsPath storagePath (zipFileNameOf r.name obs.commitHash)),
                createdAt := db.lastSync, deleted := false }).1
            disk).2,
          false) := by
    simp only [syncRepo, GetRepoByName, hfind, Option.map_some', Option.getD_some,
      hpull, hcerr, hc, Bool.not_true, Bool.false_and, Bool.false_eq_true, if_false,
      hcommit, htag, beq_self_eq_true, Bool.true_and, bne_self_eq_false,
      Bool.and_false, Bool.false_or]
  refine ⟨_, _, main, ?_, ?_, ?_⟩
  · rw [versionsLength_runRetention]
    rw [versionsLength_AddVersion_update]
    · rw [versions_UpsertRepo]
    · rw [versions_UpsertRepo]
      have hup2 : (UpsertRepo st
          { id := 0, name := r.name, url := r.url, sync := r.sync, tag := obs.tag,
            lastSync := db.lastSync, commitHash := obs.commitHash,
            zipFile := zipFileNameOf r.name obs.commitHash,
            size := sizeOf (zipsPath storagePath (zipFileNameOf r.name obs.commitHash)) }).2 = db.id := by
        simp [UpsertRepo, hfind]
      rw [show (fun w : DBVersion => w.repoID == (UpsertRepo st
          { id := 0, name := r.name, url := r.url, sync := r.sync, tag := obs.tag,
            lastSync := db.lastSync, commitHash := obs.commitHash,
            zipFile := zipFileNameOf r.name obs.commitHash,
            size := sizeOf (zipsPath storagePath (zipFileNameOf r.name obs.commitHash)) }).2 &&
          w.tag == obs.tag) = (fun w : DBVersion => w.repoID == db.id && w.tag == obs.tag) from by
        rw [hup2]]
      exact hver
  · exact disk_runRetention_subset _ _ _ _
  · rw [plVersions_runRetention, plVersions_AddVersion, plVersions_UpsertRepo]



theorem syncRepo_idempotent_witness :
    (GetRepoByName
        ⟨[⟨1, "A", "u", "m", "v1", 5, "aaaaaaaa", "A-aaaaaaa.zip", 10⟩],
         [⟨1, 1, "v1", "aaaaaaaa", "A-aaaaaaa.zip", 10, 5, false⟩],
         [], 2, 2, 1⟩ "A" = some ⟨1, "A", "u", "m", "v1", 5, "aaaaaaaa", "A-aaaaaaa.zip", 10⟩ ∧
     zipsPath "/s" (zipFileNameOf "A" "aaaaaaaa") ∈ ["/s/zips/A-aaaaaaa.zip"]) ∧
    (∃ st' disk',
      syncRepo "/s" ⟨"A", "u", "m"⟩ ⟨false, false, "aaaaaaaa", "v1", false⟩
        (fun _ => 10) 9
        ⟨[⟨1, "A", "u", "m", "v1", 5, "aaaaaaaa", "A-aaaaaaa.zip", 10⟩],
         [⟨1, 1, "v1", "aaaaaaaa", "A-aaaaaaa.zip", 10, 5, false⟩],
         [], 2, 2, 1⟩
        ["/s/zips/A-aaaaaaa.zip"] = .ok (st', disk', false) ∧
      st'.versions.length =
        (⟨[⟨1, "A", "u", "m", "v1", 5, "aaaaaaaa", "A-aaaaaaa.zip", 10⟩],
          [⟨1, 1, "v1", "aaaaaaaa", "A-aaaaaaa.zip", 10, 5, false⟩],
          [], 2, 2, 1⟩ : Store).versions.length ∧
      (∀ f ∈ disk', f ∈ ["/s/zips/A-aaaaaaa.zip"]) ∧
      st'.plVersions =
        (⟨[⟨1, "A", "u", "m", "v1", 5, "aaaaaaaa", "A-aaaaaaa.zip", 10⟩],
          [⟨1, 1, "v1", "aaaaaaaa", "A-aaaaaaa.zip", 10, 5, false⟩],
          [], 2, 2, 1⟩ : Store).plVersions) :=
  ⟨⟨by decide, by decide⟩,
   syncRepo_idempotent "/s" ⟨"A", "u", "m"⟩ ⟨false, false, "aaaaaaaa", "v1", false⟩
     (fun _ => 10) 9
     ⟨[⟨1, "A", "u", "m", "v1", 5, "aaaaaaaa", "A-aaaaaaa.zip", 10⟩],
      [⟨1, 1, "v1", "aaaaaaaa", "A-aaaaaaa.zip", 10, 5, false⟩],
      [], 2, 2, 1⟩
     ["/s/zips/A-aaaaaaa.zip"]
     ⟨1, "A", "u", "m", "v1", 5, "aaaaaaaa", "A-aaaaaaa.zip", 10⟩
     (by decide) (by decide) (by decide) (by decide)
     (by decide) (by decide) (by decide)⟩

instance : IsTotal DBVersion createdAtDesc :=
  ⟨fun a b => le_total b.createdAt a.createdAt⟩

instance : IsTrans DBVersion createdAtDesc :=
  ⟨fun _ _ _ hab hbc => le_trans hbc hab⟩

theorem markFold_versions_eq (vs : List DBVersion) (st : Store) :
    (vs.foldl (fun s v => MarkVersionAsDeleted s v.id) st).versions =
      st.versions.map (fun u =>
        if vs.any (fun v => v.id == u.id) then { u with deleted := true } else u) := by
  induction vs generalizing st with
  | nil => simp
  | cons v vs ih =>
    simp only [List.foldl_cons]
    rw [ih]
    simp only [MarkVersionAsDeleted]
    rw [List.map_map]
    refine List.map_congr_left ?_
    intro u hu
    rcases eq_or_ne v.id u.id with hv | hv
    · by_cases hvs : ∃ x ∈ vs, x.id = u.id
      · simp [hv, hvs]
      · simp [hv, hvs]
    · have hv2 : u.id ≠ v.id := Ne.symm hv
      by_cases hvs : ∃ x ∈ vs, x.id = u.id
      · simp [hv, hv2, hvs]
      · simp [hv, hv2, hvs]

theorem eraseFold_not_mem_of (vs : List DBVersion) (storagePath : String)
    (disk : List String) (x : String) (hx : x ∉ disk) :
    x ∉ vs.foldl (fun d v => d.erase (zipsPath storagePath v.zipFile)) disk :=
  fun h => hx (eraseFold_subset vs storagePath disk x h)

theorem eraseFold_not_mem (vs : List DBVersion) (storagePath : String)
    (disk : List String) (hdisk : disk.Nodup) :
    ∀ v ∈ vs, zipsPath storagePath v.zipFile ∉
      vs.foldl (fun d v => d.erase (zipsPath storagePath v.zipFile)) disk := by
  induction vs generalizing disk with
  | nil => simp
  | cons v vs ih =>
    intro v' hv'
    simp only [List.foldl_cons]
    rcases List.mem_cons.mp hv' with h1 | h2
    · subst h1
      refine eraseFold_not_mem_of vs storagePath _ _ ?_
      intro h
      exact ((List.Nodup.mem_erase_iff hdisk).mp h).1 rfl
    · exact ih _ (hdisk.erase _) v' h2



/-- C2: the retention pass at the end of every successful pipeline run:
when the not-yet-deleted rows beyond the 3 most recently created are
exactly one empty-tag placeholder row, it is exempted and nothing changes;
otherwise every such older row is marked deleted and its artifact file
removed from disk, the rows left undeleted are exactly the 3 most recently
created ones, and each kept row is at least as recent as every retired
row. -/
theorem runRetention_keeps_top3 (storagePath : String) (repoID : Int)
    (st : Store) (disk : List String)
    (hids : (st.versions.map DBVersion.id).Nodup)
    (hdisk : disk.Nodup) :
    (((GetOlderThan3LatestUnDeletedVersions st repoID).length = 1 ∧
      (GetOlderThan3LatestUnDeletedVersions st repoID).head?.map DBVersion.tag =
        some "") →
      runRetention storagePath repoID st disk = (st, disk)) ∧
    (¬((GetOlderThan3LatestUnDeletedVersions st repoID).length = 1 ∧
       (GetOlderThan3LatestUnDeletedVersions st repoID).head?.map DBVersion.tag =
         some "") →
      ((∀ v ∈ GetOlderThan3LatestUnDeletedVersions st repoID,
          ∃ w ∈ (runRetention storagePath repoID st disk).1.versions,
            w.id = v.id ∧ w.deleted = true) ∧
       (∀ v ∈ GetOlderThan3LatestUnDeletedVersions st repoID,
          zipsPath storagePath v.zipFile ∉ (runRetention storagePath repoID st disk).2) ∧
       (∀ v, v ∈ (runRetention storagePath repoID st disk).1.versions.filter
            (fun v => v.repoID == repoID && !v.deleted) ↔
          v ∈ ((st.versions.filter (fun v => v.repoID == repoID && !v.deleted)).insertionSort
            createdAtDesc).take 3) ∧
       (∀ v ∈ ((st.versions.filter (fun v => v.repoID == repoID && !v.deleted)).insertionSort
            createdAtDesc).take 3,
          ∀ w ∈ GetOlderThan3LatestUnDeletedVersions st repoID,
            w.createdAt ≤ v.createdAt))) := by
  constructor
  · intro hexempt
    simp only [runRetention]
    rw [if_pos]
    simp [hexempt.1, hexempt.2]
  · intro hne
    have hres : runRetention storagePath repoID st disk =
        ((GetOlderThan3LatestUnDeletedVersions st repoID).foldl
           (fun s v => MarkVersionAsDeleted s v.id) st,
         (GetOlderThan3LatestUnDeletedVersions st repoID).foldl
           (fun d v => d.erase (zipsPath storagePath v.zipFile)) disk) := by
      simp only [runRetention]
      rw [if_neg, runRetention_foldl]
      intro hb
      apply hne
      constructor
      · have := (Bool.and_eq_true _ _).mp hb
        simpa using this.1
      · have := (Bool.and_eq_true _ _).mp hb
        simpa using this.2
    have hres1 : (runRetention storagePath repoID st disk).1 =
        (GetOlderThan3LatestUnDeletedVersions st repoID).foldl
          (fun s v => MarkVersionAsDeleted s v.id) st := by rw [hres]
    have hres2 : (runRetention storagePath repoID st disk).2 =
        (GetOlderThan3LatestUnDeletedVersions st repoID).foldl
          (fun d v => d.erase (zipsPath storagePath v.zipFile)) disk := by rw [hres]
    have holder : GetOlderThan3LatestUnDeletedVersions st repoID =
        ((st.versions.filter (fun v => v.repoID == repoID && !v.deleted)).insertionSort
          createdAtDesc).drop 3 := rfl
    have hperm : ((st.versions.filter (fun v => v.repoID == repoID && !v.deleted)).insertionSort
        createdAtDesc).Perm (st.versions.filter (fun v => v.repoID == repoID && !v.deleted)) :=
      List.perm_insertionSort _ _
    have hsplit : ((st.versions.filter (fun v => v.repoID == repoID && !v.deleted)).insertionSort
          createdAtDesc).take 3 ++
        ((st.versions.filter (fun v => v.repoID == repoID && !v.deleted)).insertionSort
          createdAtDesc).drop 3 =
        (st.versions.filter (fun v => v.repoID == repoID && !v.deleted)).insertionSort
          createdAtDesc :=
      List.take_append_drop 3 _
    have hnodupundel : ((st.versions.filter
        (fun v => v.repoID == repoID && !v.deleted)).map DBVersion.id).Nodup :=
      List.Nodup.sublist ((List.filter_sublist _).map DBVersion.id) hids
    have hnodupsorted : (((st.versions.filter
        (fun v => v.repoID == repoID && !v.deleted)).insertionSort
          createdAtDesc).map DBVersion.id).Nodup :=
      ((hperm.map DBVersion.id).nodup_iff).mpr hnodupundel
    refine ⟨?_, ?_, ?_, ?_⟩
    · intro v hv
      have hvsorted := List.drop_subset _ _ (holder ▸ hv)
      have hvundel := hperm.mem_iff.mp hvsorted
      have hvst : v ∈ st.versions := (List.filter_sublist _).subset hvundel
      refine ⟨{ v with deleted := true }, ?_, rfl, rfl⟩
      rw [hres1, markFold_versions_eq]
      refine List.mem_map.mpr ⟨v, hvst, ?_⟩
      have hany : (GetOlderThan3LatestUnDeletedVersions st repoID).any
          (fun w => w.id == v.id) = true :=
        List.any_eq_true.mpr ⟨v, hv, by simp⟩
      rw [if_pos hany]
    · intro v hv
      rw [hres2]
      exact eraseFold_not_mem _ storagePath disk hdisk v hv
    · intro v
      rw [hres1, markFold_versions_eq]
      constructor
      · intro hvres
        obtain ⟨hvmem, hvp⟩ := List.mem_filter.mp hvres
        obtain ⟨u, hu, hufv⟩ := List.mem_map.mp hvmem
        by_cases hany : (GetOlderThan3LatestUnDeletedVersions st repoID).any
            (fun w => w.id == u.id) = true
        · rw [if_pos hany] at hufv
          exfalso
          rw [← hufv] at hvp
          simp at hvp
        · rw [if_neg hany] at hufv
          subst hufv
          have hvundel : u ∈ st.versions.filter
              (fun v => v.repoID == repoID && !v.deleted) := List.mem_filter.mpr ⟨hu, hvp⟩
          have hvsorted := hperm.mem_iff.mpr hvundel
          rw [← hsplit] at hvsorted
          rcases List.mem_append.mp hvsorted with hk | ho
          · exact hk
          · exact absurd (List.any_eq_true.mpr ⟨u, holder ▸ ho, by simp⟩) hany
      · intro hvkept
        have hvsorted := List.take_subset _ _ hvkept
        have hvundel := hperm.mem_iff.mp hvsorted
        obtain ⟨hvst, hvp⟩ := List.mem_filter.mp hvundel
        have hany : ¬((GetOlderThan3LatestUnDeletedVersions st repoID).any
            (fun w => w.id == v.id) = true) := by
          intro hany
          obtain ⟨w, hwmem, hwid⟩ := List.any_eq_true.mp hany
          have hwid2 : w.id = v.id := by simpa using hwid
          have hnd : (List.map DBVersion.id
                (((st.versions.filter (fun v => v.repoID == repoID && !v.deleted)).insertionSort
                  createdAtDesc).take 3) ++
              List.map DBVersion.id
                (((st.versions.filter (fun v => v.repoID == repoID && !v.deleted)).insertionSort
                  createdAtDesc).drop 3)).Nodup := by
            rw [← List.map_append, hsplit]
            exact hnodupsorted
          have hdisj := (List.nodup_append.mp hnd).2.2
          exact hdisj (List.mem_map_of_mem _ hvkept)
            (hwid2 ▸ List.mem_map_of_mem _ (holder ▸ hwmem))
        refine List.mem_filter.mpr ⟨List.mem_map.mpr ⟨v, hvst, ?_⟩, hvp⟩
        rw [if_neg hany]
    · intro v hv w hw
      have hpw : List.Pairwise (fun a b => createdAtDesc a b)
          ((st.versions.filter (fun v => v.repoID == repoID && !v.deleted)).insertionSort
            createdAtDesc) := List.sorted_insertionSort createdAtDesc _
      rw [← hsplit] at hpw
      exact (List.pairwise_append.mp hpw).2.2 v hv w (holder ▸ hw)



theorem runRetention_keeps_top3_witness :
    ((((⟨[],
      [⟨1, 1, "t1", "c1", "z1.zip", 1, 1, false⟩,
       ⟨2, 1, "t2", "c2", "z2.zip", 1, 2, false⟩,
       ⟨3, 1, "t3", "c3", "z3.zip", 1, 3, false⟩,
       ⟨4, 1, "t4", "c4", "z4.zip", 1, 4, false⟩,
       ⟨5, 1, "t5", "c5", "z5.zip", 1, 5, false⟩],
      [], 1, 6, 1⟩ : Store).versions.map DBVersion.id).Nodup ∧ (["/s/zips/z1.zip", "/s/zips/z2.zip", "/s/zips/z3.zip", "/s/zips/z4.zip",
      "/s/zips/z5.zip"]).Nodup) ∧
    ((((GetOlderThan3LatestUnDeletedVersions (⟨[],
      [⟨1, 1, "t1", "c1", "z1.zip", 1, 1, false⟩,
       ⟨2, 1, "t2", "c2", "z2.zip", 1, 2, false⟩,
       ⟨3, 1, "t3", "c3", "z3.zip", 1, 3, false⟩,
       ⟨4, 1, "t4", "c4", "z4.zip", 1, 4, false⟩,
       ⟨5, 1, "t5", "c5", "z5.zip", 1, 5, false⟩],
      [], 1, 6, 1⟩ : Store) 1).length = 1 ∧
      (GetOlderThan3LatestUnDeletedVersions (⟨[],
      [⟨1, 1, "t1", "c1", "z1.zip", 1, 1, false⟩,
       ⟨2, 1, "t2", "c2", "z2.zip", 1, 2, false⟩,
       ⟨3, 1, "t3", "c3", "z3.zip", 1, 3, false⟩,
       ⟨4, 1, "t4", "c4", "z4.zip", 1, 4, false⟩,
       ⟨5, 1, "t5", "c5", "z5.zip", 1, 5, false⟩],
      [], 1, 6, 1⟩ : Store) 1).head?.map DBVersion.tag =
        some "") →
      runRetention "/s" 1 (⟨[],
      [⟨1, 1, "t1", "c1", "z1.zip", 1, 1, false⟩,
       ⟨2, 1, "t2", "c2", "z2.zip", 1, 2, false⟩,
       ⟨3, 1, "t3", "c3", "z3.zip", 1, 3, false⟩,
       ⟨4, 1, "t4", "c4", "z4.zip", 1, 4, false⟩,
       ⟨5, 1, "t5", "c5", "z5.zip", 1, 5, false⟩],
      [], 1, 6, 1⟩ : Store) ["/s/zips/z1.zip", "/s/zips/z2.zip", "/s/zips/z3.zip", "/s/zips/z4.zip",
      "/s/zips/z5.zip"] = ((⟨[],
      [⟨1, 1, "t1", "c1", "z1.zip", 1, 1, false⟩,
       ⟨2, 1, "t2", "c2", "z2.zip", 1, 2, false⟩,
       ⟨3, 1, "t3", "c3", "z3.zip", 1, 3, false⟩,
       ⟨4, 1, "t4", "c4", "z4.zip", 1, 4, false⟩,
       ⟨5, 1, "t5", "c5", "z5.zip", 1, 5, false⟩],
      [], 1, 6, 1⟩ : Store), ["/s/zips/z1.zip", "/s/zips/z2.zip", "/s/zips/z3.zip", "/s/zips/z4.zip",
      "/s/zips/z5.zip"])) ∧
    (¬((GetOlderThan3LatestUnDeletedVersions (⟨[],
      [⟨1, 1, "t1", "c1", "z1.zip", 1, 1, false⟩,
       ⟨2, 1, "t2", "c2", "z2.zip", 1, 2, false⟩,
       ⟨3, 1, "t3", "c3", "z3.zip", 1, 3, false⟩,
       ⟨4, 1, "t4", "c4", "z4.zip", 1, 4, false⟩,
       ⟨5, 1, "t5", "c5", "z5.zip", 1, 5, false⟩],
      [], 1, 6, 1⟩ : Store) 1).length = 1 ∧
       (GetOlderThan3LatestUnDeletedVersions (⟨[],
      [⟨1, 1, "t1", "c1", "z1.zip", 1, 1, false⟩,
       ⟨2, 1, "t2", "c2", "z2.zip", 1, 2, false⟩,
       ⟨3, 1, "t3", "c3", "z3.zip", 1, 3, false⟩,
       ⟨4, 1, "t4", "c4", "z4.zip", 1, 4, false⟩,
       ⟨5, 1, "t5", "c5", "z5.zip", 1, 5, false⟩],
      [], 1, 6, 1⟩ : Store) 1).head?.map DBVersion.tag =
         some "") →
      ((∀ v ∈ GetOlderThan3LatestUnDeletedVersions (⟨[],
      [⟨1, 1, "t1", "c1", "z1.zip", 1, 1, false⟩,
       ⟨2, 1, "t2", "c2", "z2.zip", 1, 2, false⟩,
       ⟨3, 1, "t3", "c3", "z3.zip", 1, 3, false⟩,
       ⟨4, 1, "t4", "c4", "z4.zip", 1, 4, false⟩,
       ⟨5, 1, "t5", "c5", "z5.zip", 1, 5, false⟩],
      [], 1, 6, 1⟩ : Store) 1,
          ∃ w ∈ (runRetention "/s" 1 (⟨[],
      [⟨1, 1, "t1", "c1", "z1.zip", 1, 1, false⟩,
       ⟨2, 1, "t2", "c2", "z2.zip", 1, 2, false⟩,
       ⟨3, 1, "t3", "c3", "z3.zip", 1, 3, false⟩,
       ⟨4, 1, "t4", "c4", "z4.zip", 1, 4, false⟩,
       ⟨5, 1, "t5", "c5", "z5.zip", 1, 5, false⟩],
      [], 1, 6, 1⟩ : Store) ["/s/zips/z1.zip", "/s/zips/z2.zip", "/s/zips/z3.zip", "/s/zips/z4.zip",
      "/s/zips/z5.zip"]).1.versions,
            w.id = v.id ∧ w.deleted = true) ∧
       (∀ v ∈ GetOlderThan3LatestUnDeletedVersions (⟨[],
      [⟨1, 1, "t1", "c1", "z1.zip", 1, 1, false⟩,
       ⟨2, 1, "t2", "c2", "z2.zip", 1, 2, false⟩,
       ⟨3, 1, "t3", "c3", "z3.zip", 1, 3, false⟩,
       ⟨4, 1, "t4", "c4", "z4.zip", 1, 4, false⟩,
       ⟨5, 1, "t5", "c5", "z5.zip", 1, 5, false⟩],
      [], 1, 6, 1⟩ : Store) 1,
          zipsPath "/s" v.zipFile ∉ (runRetention "/s" 1 (⟨[],
      [⟨1, 1, "t1", "c1", "z1.zip", 1, 1, false⟩,
       ⟨2, 1, "t2", "c2", "z2.zip", 1, 2, false⟩,
       ⟨3, 1, "t3", "c3", "z3.zip", 1, 3, false⟩,
       ⟨4, 1, "t4", "c4", "z4.zip", 1, 4, false⟩,
       ⟨5, 1, "t5", "c5", "z5.zip", 1, 5, false⟩],
      [], 1, 6, 1⟩ : Store) ["/s/zips/z1.zip", "/s/zips/z2.zip", "/s/zips/z3.zip", "/s/zips/z4.zip",
      "/s/zips/z5.zip"]).2) ∧
       (∀ v, v ∈ (runRetention "/s" 1 (⟨[],
      [⟨1, 1, "t1", "c1", "z1.zip", 1, 1, false⟩,
       ⟨2, 1, "t2", "c2", "z2.zip", 1, 2, false⟩,
       ⟨3, 1, "t3", "c3", "z3.zip", 1, 3, false⟩,
       ⟨4, 1, "t4", "c4", "z4.zip", 1, 4, false⟩,
       ⟨5, 1, "t5", "c5", "z5.zip", 1, 5, false⟩],
      [], 1, 6, 1⟩ : Store) ["/s/zips/z1.zip", "/s/zips/z2.zip", "/s/zips/z3.zip", "/s/zips/z4.zip",
      "/s/zips/z5.zip"]).1.versions.filter
            (fun v => v.repoID == 1 && !v.deleted) ↔
          v ∈ (((⟨[],
      [⟨1, 1, "t1", "c1", "z1.zip", 1, 1, false⟩,
       ⟨2, 1, "t2", "c2", "z2.zip", 1, 2, false⟩,
       ⟨3, 1, "t3", "c3", "z3.zip", 1, 3, false⟩,
       ⟨4, 1, "t4", "c4", "z4.zip", 1, 4, false⟩,
       ⟨5, 1, "t5", "c5", "z5.zip", 1, 5, false⟩],
      [], 1, 6, 1⟩ : Store).versions.filter (fun v => v.repoID == 1 && !v.deleted)).insertionSort
            createdAtDesc).take 3) ∧
       (∀ v ∈ (((⟨[],
      [⟨1, 1, "t1", "c1", "z1.zip", 1, 1, false⟩,
       ⟨2, 1, "t2", "c2", "z2.zip", 1, 2, false⟩,
       ⟨3, 1, "t3", "c3", "z3.zip", 1, 3, false⟩,
       ⟨4, 1, "t4", "c4", "z4.zip", 1, 4, false⟩,
       ⟨5, 1, "t5", "c5", "z5.zip", 1, 5, false⟩],
      [], 1, 6, 1⟩ : Store).versions.filter (fun v => v.repoID == 1 && !v.deleted)).insertionSort
            createdAtDesc).take 3,
          ∀ w ∈ GetOlderThan3LatestUnDeletedVersions (⟨[],
      [⟨1, 1, "t1", "c1", "z1.zip", 1, 1, false⟩,
       ⟨2, 1, "t2", "c2", "z2.zip", 1, 2, false⟩,
       ⟨3, 1, "t3", "c3", "z3.zip", 1, 3, false⟩,
       ⟨4, 1, "t4", "c4", "z4.zip", 1, 4, false⟩,
       ⟨5, 1, "t5", "c5", "z5.zip", 1, 5, false⟩],
      [], 1, 6, 1⟩ : Store) 1,
            w.createdAt ≤ v.createdAt))))) :=
  ⟨⟨by decide, by decide⟩,
   runRetention_keeps_top3 "/s" 1 (⟨[],
      [⟨1, 1, "t1", "c1", "z1.zip", 1, 1, false⟩,
       ⟨2, 1, "t2", "c2", "z2.zip", 1, 2, false⟩,
       ⟨3, 1, "t3", "c3", "z3.zip", 1, 3, false⟩,
       ⟨4, 1, "t4", "c4", "z4.zip", 1, 4, false⟩,
       ⟨5, 1, "t5", "c5", "z5.zip", 1, 5, false⟩],
      [], 1, 6, 1⟩ : Store) ["/s/zips/z1.zip", "/s/zips/z2.zip", "/s/zips/z3.zip", "/s/zips/z4.zip",
      "/s/zips/z5.zip"] (by decide) (by decide)⟩

theorem zipsPath_inj (storagePath : String) {a b : String}
    (h : zipsPath storagePath a = zipsPath storagePath b) : a = b := by
  have hd := congrArg String.data h
  simp only [zipsPath, String.data_append] at hd
  exact String.ext (List.append_cancel_left hd)

theorem zipFileNameOf_inj_commit7 {n a b : String}
    (h : zipFileNameOf n a = zipFileNameOf n b) : a.take 7 = b.take 7 := by
  have hd := congrArg String.data h
  simp only [zipFileNameOf, String.data_append] at hd
  exact String.ext (List.append_cancel_left (List.append_cancel_right hd))

theorem eraseFold_mem_of_ne (vs : List DBVersion) (storagePath : String)
    (disk : List String) (x : String) (hx : x ∈ disk)
    (h : ∀ v ∈ vs, zipsPath storagePath v.zipFile ≠ x) :
    x ∈ vs.foldl (fun d v => d.erase (zipsPath storagePath v.zipFile)) disk := by
  induction vs generalizing disk with
  | nil => exact hx
  | cons v vs ih =>
    simp only [List.foldl_cons]
    refine ih _ ?_ (fun w hw => h w (List.mem_cons_of_mem _ hw))
    exact (List.mem_erase_of_ne (Ne.symm (h v (List.mem_cons_self _ _)))).mpr hx

theorem exists_mem_take_ne (l : List DBVersion)
    (hnd : (l.map DBVersion.id).Nodup) (v : DBVersion) (hv : v ∈ l.drop 3) :
    ∃ a ∈ l.take 3, a ≠ v := by
  have hlen : 3 < l.length := by
    have := List.ne_nil_of_mem hv
    by_contra hle
    exact this (List.drop_eq_nil_iff.mpr (by omega))
  have hlen3 : (l.take 3).length = 3 := by
    rw [List.length_take]
    omega
  have hndt : ((l.take 3).map DBVersion.id).Nodup := by
    have : ((l.take 3).map DBVersion.id ++ (l.drop 3).map DBVersion.id).Nodup := by
      rw [← List.map_append, List.take_append_drop]
      exact hnd
    exact (List.nodup_append.mp this).1
  by_contra hall
  push_neg at hall
  obtain ⟨a, b, c, habc⟩ := List.length_eq_three.mp hlen3
  have ha : a = v := hall a (habc ▸ List.mem_cons_self _ _)
  have hb : b = v := hall b (habc ▸ List.mem_cons_of_mem _ (List.mem_cons_self _ _))
  rw [habc, ha, hb] at hndt
  simp at hndt



theorem runRetention_mem_disk (storagePath : String) (repoID : Int)
    (st : Store) (disk : List String) (x : String) (hx : x ∈ disk)
    (h : ∀ v ∈ GetOlderThan3LatestUnDeletedVersions st repoID,
      zipsPath storagePath v.zipFile ≠ x) :
    x ∈ (runRetention storagePath repoID st disk).2 := by
  simp only [runRetention]
  split
  · exact hx
  · rw [runRetention_foldl]
    exact eraseFold_mem_of_ne _ _ _ _ hx h

theorem filter_map_triple_runRetention (storagePath : String) (repoID : Int)
    (st : Store) (disk : List String) (repoID2 : Int) (tag2 : String) :
    ((runRetention storagePath repoID st disk).1.versions.filter
        (fun v => v.repoID == repoID2 && v.tag == tag2)).map
      (fun v => (v.commitHash, v.zipFile, v.size)) =
    (st.versions.filter (fun v => v.repoID == repoID2 && v.tag == tag2)).map
      (fun v => (v.commitHash, v.zipFile, v.size)) := by
  simp only [runRetention]
  split
  · rfl
  · rw [runRetention_foldl]
    dsimp only
    rw [markFold_versions_eq, List.filter_map]
    have hp : ((fun v : DBVersion => v.repoID == repoID2 && v.tag == tag2) ∘
        (fun u => if (GetOlderThan3LatestUnDeletedVersions st repoID).any
            (fun v => v.id == u.id) then { u with deleted := true } else u)) =
        (fun v : DBVersion => v.repoID == repoID2 && v.tag == tag2) := by
      funext u
      by_cases hk : ∃ x ∈ GetOlderThan3LatestUnDeletedVersions st repoID,
          x.id = u.id <;> simp [hk]
    rw [hp, List.map_map]
    refine List.map_congr_left ?_
    intro u hu
    by_cases hk : ∃ x ∈ GetOlderThan3LatestUnDeletedVersions st repoID,
        x.id = u.id <;> simp [hk]


/-- C4 (amended): when the recorded tag equals the observed tag but the
commit changed *and the two commits differ within their first 7
characters*, a successful sync deletes the old artifact file from disk,
leaves the newly built artifact for the new commit on disk, and leaves
exactly one ArtifactVersion row for that (repoId, tag) pair holding the
updated commit/file/size (under the store invariants: unique row ids,
unique (repoId, tag) row, fresh clock, no pre-existing row referencing the
new artifact name). -/
theorem syncRepo_tag_moved (storagePath : String) (r : GitRepo)
    (obs : Observation) (sizeOf : String → Int) (now : Nat) (st : Store)
    (disk : List String) (db : DBRepo)
    (hrepo : GetRepoByName st r.name = some db)
    (htag : db.tag = obs.tag)
    (hcommit : db.commitHash ≠ obs.commitHash)
    (hpfx : db.commitHash.take 7 ≠ obs.commitHash.take 7)
    (hlen : 7 ≤ db.commitHash.length)
    (hpull : obs.pullErr = false) (hcerr : obs.commitErr = false)
    (hzerr : obs.createZipErr = false)
    (hnew : zipsPath storagePath (zipFileNameOf r.name obs.commitHash) ∉ disk)
    (hdisknd : disk.Nodup)
    (hids : (st.versions.map DBVersion.id).Nodup)
    (hnext : ∀ v ∈ st.versions, v.id ≠ st.nextVersionId)
    (huniq : (st.versions.filter
        (fun v => v.repoID == db.id && v.tag == obs.tag)).length ≤ 1)
    (hfresh : ∀ v ∈ st.versions, v.repoID = db.id → v.deleted = false →
        v.createdAt < now)
    (hname : ∀ v ∈ st.versions, v.repoID = db.id →
        v.zipFile ≠ zipFileNameOf r.name obs.commitHash) :
    ∃ st' disk' changed,
      syncRepo storagePath r obs sizeOf now st disk = .ok (st', disk', changed) ∧
      zipsPath storagePath (zipFileNameOf r.name obs.commitHash) ∈ disk' ∧
      zipsPath storagePath (zipFileNameOf r.name db.commitHash) ∉ disk' ∧
      (st'.versions.filter (fun v => v.repoID == db.id && v.tag == obs.tag)).map
          (fun v => (v.commitHash, v.zipFile, v.size)) =
        [(obs.commitHash, zipFileNameOf r.name obs.commitHash,
          sizeOf (zipsPath storagePath (zipFileNameOf r.name obs.commitHash)))] := by
  have hfind : st.repos.find? (fun w => w.name == r.name) = some db := hrepo
  have hcfalse : disk.contains
      (zipsPath storagePath (zipFileNameOf r.name obs.commitHash)) = false := by
    rw [Bool.eq_false_iff]
    intro hcc
    exact hnew (List.elem_iff.mp hcc)
  have htagb : (db.tag == obs.tag) = true := by simp [htag]
  have hlenb : decide (7 ≤ db.commitHash.length) = true := by simp [hlen]
  have hneb : (db.commitHash != obs.commitHash) = true := by
    simp [bne_iff_ne, hcommit]
  have main : syncRepo storagePath r obs sizeOf now st disk =
      .ok ((runRetention storagePath (UpsertRepo st
        ⟨0, r.name, r.url, r.sync, obs.tag, now, obs.commitHash,
        zipFileNameOf r.name obs.commitHash,
        sizeOf (zipsPath storagePath (zipFileNameOf r.name obs.commitHash))⟩).2
        (AddVersion (UpsertRepo st
        ⟨0, r.name, r.url, r.sync, obs.tag, now, obs.commitHash,
        zipFileNameOf r.name obs.commitHash,
        sizeOf (zipsPath storagePath (zipFileNameOf r.name obs.commitHash))⟩).1
        ⟨0, (UpsertRepo st
        ⟨0, r.name, r.url, r.sync, obs.tag, now, obs.commitHash,
        zipFileNameOf r.name obs.commitHash,
        sizeOf (zipsPath storagePath (zipFileNameOf r.name obs.commitHash))⟩).2,
        obs.tag, obs.commitHash, zipFileNameOf r.name obs.commitHash,
        sizeOf (zipsPath storagePath (zipFileNameOf r.name obs.commitHash)),
        now, false⟩).1
        ((zipsPath storagePath (zipFileNameOf r.name obs.commitHash) :: disk).erase
        (zipsPath storagePath (zipFileNameOf r.name db.commitHash)))).1,
           (runRetention storagePath (UpsertRepo st
        ⟨0, r.name, r.url, r.sync, obs.tag, now, obs.commitHash,
        zipFileNameOf r.name obs.commitHash,
        sizeOf (zipsPath storagePath (zipFileNameOf r.name obs.commitHash))⟩).2
        (AddVersion (UpsertRepo st
        ⟨0, r.name, r.url, r.sync, obs.tag, now, obs.commitHash,
        zipFileNameOf r.name obs.commitHash,
        sizeOf (zipsPath storagePath (zipFileNameOf r.name obs.commitHash))⟩).1
        ⟨0, (UpsertRepo st
        ⟨0, r.name, r.url, r.sync, obs.tag, now, obs.commitHash,
        zipFileNameOf r.name obs.commitHash,
        sizeOf (zipsPath storagePath (zipFileNameOf r.name obs.commitHash))⟩).2,
        obs.tag, obs.commitHash, zipFileNameOf r.name obs.commitHash,
        sizeOf (zipsPath storagePath (zipFileNameOf r.name obs.commitHash)),
        now, false⟩).1
        ((zipsPath storagePath (zipFileNameOf r.name obs.commitHash) :: disk).erase
        (zipsPath storagePath (zipFileNameOf r.name db.commitHash)))).2,
           true) := by
    simp only [syncRepo, GetRepoByName, hfind, Option.map_some', Option.getD_some,
      hpull, hcerr, hcfalse, Bool.not_false, hzerr, Bool.and_false,
      Bool.false_eq_true, if_false, if_true, htagb, hlenb, hneb, Bool.true_and,
      Bool.and_self, Bool.true_or]
  have hup2 : (UpsertRepo st
      ⟨0, r.name, r.url, r.sync, obs.tag, now, obs.commitHash,
        zipFileNameOf r.name obs.commitHash,
        sizeOf (zipsPath storagePath (zipFileNameOf r.name obs.commitHash))⟩).2 = db.id := by
    simp [UpsertRepo, hfind]
  have hupv : (UpsertRepo st
      ⟨0, r.name, r.url, r.sync, obs.tag, now, obs.commitHash,
        zipFileNameOf r.name obs.commitHash,
        sizeOf (zipsPath storagePath (zipFileNameOf r.name obs.commitHash))⟩).1.versions = st.versions := versions_UpsertRepo _ _
  have hupnv : (UpsertRepo st
      ⟨0, r.name, r.url, r.sync, obs.tag, now, obs.commitHash,
        zipFileNameOf r.name obs.commitHash,
        sizeOf (zipsPath storagePath (zipFileNameOf r.name obs.commitHash))⟩).1.nextVersionId = st.nextVersionId := by
    cases h : st.repos.find? (fun w => w.name == r.name) <;> simp [UpsertRepo, h]
  rw [hup2] at main
  have hbranch :
      (∃ x, st.versions.filter (fun w => w.repoID == db.id && w.tag == obs.tag) = [x] ∧
        ((AddVersion (UpsertRepo st
      ⟨0, r.name, r.url, r.sync, obs.tag, now, obs.commitHash,
        zipFileNameOf r.name obs.commitHash,
        sizeOf (zipsPath storagePath (zipFileNameOf r.name obs.commitHash))⟩).1
      ⟨0, db.id, obs.tag, obs.commitHash, zipFileNameOf r.name obs.commitHash,
      sizeOf (zipsPath storagePath (zipFileNameOf r.name obs.commitHash)), now, false⟩).1).versions = st.versions.map (fun u => if u.repoID == db.id && u.tag == obs.tag then
        (⟨u.id, u.repoID, u.tag, obs.commitHash, zipFileNameOf r.name obs.commitHash,
          sizeOf (zipsPath storagePath (zipFileNameOf r.name obs.commitHash)), now, u.deleted⟩ : DBVersion)
      else u)) ∨
      ((st.versions.filter (fun w => w.repoID == db.id && w.tag == obs.tag)) = [] ∧
        ((AddVersion (UpsertRepo st
      ⟨0, r.name, r.url, r.sync, obs.tag, now, obs.commitHash,
        zipFileNameOf r.name obs.commitHash,
        sizeOf (zipsPath storagePath (zipFileNameOf r.name obs.commitHash))⟩).1
      ⟨0, db.id, obs.tag, obs.commitHash, zipFileNameOf r.name obs.commitHash,
      sizeOf (zipsPath storagePath (zipFileNameOf r.name obs.commitHash)), now, false⟩).1).versions = st.versions ++
          [⟨st.nextVersionId, db.id, obs.tag, obs.commitHash, zipFileNameOf r.name obs.commitHash,
      sizeOf (zipsPath storagePath (zipFileNameOf r.name obs.commitHash)), now, false⟩]) := by
    cases hfound : st.versions.find? (fun w => w.repoID == db.id && w.tag == obs.tag) with
    | none =>
      right
      constructor
      · exact List.filter_eq_nil_iff.mpr (List.find?_eq_none.mp hfound)
      · simp only [AddVersion, hupv, hfound, hupnv]
    | some w =>
      left
      have hwmem : w ∈ st.versions.filter (fun w => w.repoID == db.id && w.tag == obs.tag) :=
        List.mem_filter.mpr ⟨List.mem_of_find?_eq_some hfound,
          List.find?_some (p := fun w : DBVersion => w.repoID == db.id && w.tag == obs.tag) hfound⟩
      have hlen1 : (st.versions.filter
          (fun w => w.repoID == db.id && w.tag == obs.tag)).length = 1 := by
        have := List.length_pos_of_mem hwmem
        omega
      obtain ⟨x, hx⟩ := List.length_eq_one.mp hlen1
      refine ⟨x, hx, ?_⟩
      simp only [AddVersion, hupv, hfound]
  have hneqpath : zipsPath storagePath (zipFileNameOf r.name obs.commitHash) ≠
      zipsPath storagePath (zipFileNameOf r.name db.commitHash) := by
    intro h
    exact hpfx (zipFileNameOf_inj_commit7 (zipsPath_inj _ h)).symm
  have hnd2 : (zipsPath storagePath (zipFileNameOf r.name obs.commitHash) :: disk).Nodup :=
    List.nodup_cons.mpr ⟨hnew, hdisknd⟩
  have hids2 : (((AddVersion (UpsertRepo st
      ⟨0, r.name, r.url, r.sync, obs.tag, now, obs.commitHash,
        zipFileNameOf r.name obs.commitHash,
        sizeOf (zipsPath storagePath (zipFileNameOf r.name obs.commitHash))⟩).1
      ⟨0, db.id, obs.tag, obs.commitHash, zipFileNameOf r.name obs.commitHash,
      sizeOf (zipsPath storagePath (zipFileNameOf r.name obs.commitHash)), now, false⟩).1).versions.map DBVersion.id).Nodup := by
    rcases hbranch with ⟨x, hx, hv2⟩ | ⟨hflt, hv2⟩
    · rw [hv2, List.map_map]
      have hcomp : (DBVersion.id ∘ (fun u => if u.repoID == db.id && u.tag == obs.tag then
        (⟨u.id, u.repoID, u.tag, obs.commitHash, zipFileNameOf r.name obs.commitHash,
          sizeOf (zipsPath storagePath (zipFileNameOf r.name obs.commitHash)), now, u.deleted⟩ : DBVersion)
      else u)) = DBVersion.id := by
        funext u
        by_cases hk : u.repoID = db.id ∧ u.tag = obs.tag <;> simp [hk]
      rw [hcomp]
      exact hids
    · rw [hv2, List.map_append]
      rw [List.nodup_append]
      refine ⟨hids, by simp, ?_⟩
      intro i hi hi2
      simp only [List.map_cons, List.map_nil, List.mem_singleton] at hi2
      obtain ⟨u, hu, hui⟩ := List.mem_map.mp hi
      rw [hi2] at hui
      exact hnext u hu hui
  have hF6 : ∀ u ∈ ((AddVersion (UpsertRepo st
      ⟨0, r.name, r.url, r.sync, obs.tag, now, obs.commitHash,
        zipFileNameOf r.name obs.commitHash,
        sizeOf (zipsPath storagePath (zipFileNameOf r.name obs.commitHash))⟩).1
      ⟨0, db.id, obs.tag, obs.commitHash, zipFileNameOf r.name obs.commitHash,
      sizeOf (zipsPath storagePath (zipFileNameOf r.name obs.commitHash)), now, false⟩).1).versions, (u.repoID == db.id && !u.deleted) = true →
      u.zipFile = zipFileNameOf r.name obs.commitHash → u.createdAt = now := by
    rcases hbranch with ⟨x, hx, hv2⟩ | ⟨hflt, hv2⟩
    · intro u hu hpd hz
      rw [hv2] at hu
      obtain ⟨u0, hu0, hgu⟩ := List.mem_map.mp hu
      by_cases hk : (u0.repoID == db.id && u0.tag == obs.tag) = true
      · rw [if_pos hk] at hgu
        rw [← hgu]
      · rw [if_neg hk] at hgu
        subst hgu
        exfalso
        have hrid : u0.repoID = db.id := by
          have := (Bool.and_eq_true _ _).mp hpd
          simpa using this.1
        exact hname u0 hu0 hrid hz
    · intro u hu hpd hz
      rw [hv2] at hu
      rcases List.mem_append.mp hu with h1 | h2
      · exfalso
        have hrid : u.repoID = db.id := by
          have := (Bool.and_eq_true _ _).mp hpd
          simpa using this.1
        exact hname u h1 hrid hz
      · rw [List.mem_singleton.mp h2]
  have hF8 : ∀ u ∈ ((AddVersion (UpsertRepo st
      ⟨0, r.name, r.url, r.sync, obs.tag, now, obs.commitHash,
        zipFileNameOf r.name obs.commitHash,
        sizeOf (zipsPath storagePath (zipFileNameOf r.name obs.commitHash))⟩).1
      ⟨0, db.id, obs.tag, obs.commitHash, zipFileNameOf r.name obs.commitHash,
      sizeOf (zipsPath storagePath (zipFileNameOf r.name obs.commitHash)), now, false⟩).1).versions, (u.repoID == db.id && !u.deleted) = true →
      u.createdAt ≤ now := by
    rcases hbranch with ⟨x, hx, hv2⟩ | ⟨hflt, hv2⟩
    · intro u hu hpd
      rw [hv2] at hu
      obtain ⟨u0, hu0, hgu⟩ := List.mem_map.mp hu
      by_cases hk : (u0.repoID == db.id && u0.tag == obs.tag) = true
      · rw [if_pos hk] at hgu
        rw [← hgu]
      · rw [if_neg hk] at hgu
        subst hgu
        have hrid : u0.repoID = db.id := by
          have := (Bool.and_eq_true _ _).mp hpd
          simpa using this.1
        have hdel : u0.deleted = false := by
          have := (Bool.and_eq_true _ _).mp hpd
          simpa using this.2
        exact le_of_lt (hfresh u0 hu0 hrid hdel)
    · intro u hu hpd
      rw [hv2] at hu
      rcases List.mem_append.mp hu with h1 | h2
      · have hrid : u.repoID = db.id := by
          have := (Bool.and_eq_true _ _).mp hpd
          simpa using this.1
        have hdel : u.deleted = false := by
          have := (Bool.and_eq_true _ _).mp hpd
          simpa using this.2
        exact le_of_lt (hfresh u h1 hrid hdel)
      · rw [List.mem_singleton.mp h2]
  have hF5 : ∀ u ∈ ((AddVersion (UpsertRepo st
      ⟨0, r.name, r.url, r.sync, obs.tag, now, obs.commitHash,
        zipFileNameOf r.name obs.commitHash,
        sizeOf (zipsPath storagePath (zipFileNameOf r.name obs.commitHash))⟩).1
      ⟨0, db.id, obs.tag, obs.commitHash, zipFileNameOf r.name obs.commitHash,
      sizeOf (zipsPath storagePath (zipFileNameOf r.name obs.commitHash)), now, false⟩).1).versions, (u.repoID == db.id && !u.deleted) = true →
      u.createdAt = now → ∀ u' ∈ ((AddVersion (UpsertRepo st
      ⟨0, r.name, r.url, r.sync, obs.tag, now, obs.commitHash,
        zipFileNameOf r.name obs.commitHash,
        sizeOf (zipsPath storagePath (zipFileNameOf r.name obs.commitHash))⟩).1
      ⟨0, db.id, obs.tag, obs.commitHash, zipFileNameOf r.name obs.commitHash,
      sizeOf (zipsPath storagePath (zipFileNameOf r.name obs.commitHash)), now, false⟩).1).versions,
      (u'.repoID == db.id && !u'.deleted) = true → u'.createdAt = now → u = u' := by
    rcases hbranch with ⟨x, hx, hv2⟩ | ⟨hflt, hv2⟩
    · have hgx : ∀ u ∈ st.versions.map (fun u => if u.repoID == db.id && u.tag == obs.tag then
        (⟨u.id, u.repoID, u.tag, obs.commitHash, zipFileNameOf r.name obs.commitHash,
          sizeOf (zipsPath storagePath (zipFileNameOf r.name obs.commitHash)), now, u.deleted⟩ : DBVersion)
      else u),
          (u.repoID == db.id && !u.deleted) = true → u.createdAt = now →
          u = (fun u => if u.repoID == db.id && u.tag == obs.tag then
        (⟨u.id, u.repoID, u.tag, obs.commitHash, zipFileNameOf r.name obs.commitHash,
          sizeOf (zipsPath storagePath (zipFileNameOf r.name obs.commitHash)), now, u.deleted⟩ : DBVersion)
      else u) x := by
        intro u hu hpd hZ
        obtain ⟨u0, hu0, hgu⟩ := List.mem_map.mp hu
        by_cases hk : (u0.repoID == db.id && u0.tag == obs.tag) = true
        · have hxx : u0 ∈ st.versions.filter
              (fun w => w.repoID == db.id && w.tag == obs.tag) :=
            List.mem_filter.mpr ⟨hu0, hk⟩
          rw [hx, List.mem_singleton] at hxx
          rw [← hgu, hxx]
        · rw [if_neg hk] at hgu
          subst hgu
          exfalso
          have hrid : u0.repoID = db.id := by
            have := (Bool.and_eq_true _ _).mp hpd
            simpa using this.1
          have hdel : u0.deleted = false := by
            have := (Bool.and_eq_true _ _).mp hpd
            simpa using this.2
          exact Nat.lt_irrefl now (hZ ▸ hfresh u0 hu0 hrid hdel)
      intro u hu hpd hZ u' hu' hpd' hZ'
      rw [hv2] at hu hu'
      rw [hgx u hu hpd hZ, hgx u' hu' hpd' hZ']
    · have hgx : ∀ u ∈ st.versions ++ [(⟨st.nextVersionId, db.id, obs.tag, obs.commitHash, zipFileNameOf r.name obs.commitHash,
      sizeOf (zipsPath storagePath (zipFileNameOf r.name obs.commitHash)), now, false⟩ : DBVersion)],
          (u.repoID == db.id && !u.deleted) = true → u.createdAt = now →
          u = (⟨st.nextVersionId, db.id, obs.tag, obs.commitHash, zipFileNameOf r.name obs.commitHash,
      sizeOf (zipsPath storagePath (zipFileNameOf r.name obs.commitHash)), now, false⟩ : DBVersion) := by
        intro u hu hpd hZ
        rcases List.mem_append.mp hu with h1 | h2
        · exfalso
          have hrid : u.repoID = db.id := by
            have := (Bool.and_eq_true _ _).mp hpd
            simpa using this.1
          have hdel : u.deleted = false := by
            have := (Bool.and_eq_true _ _).mp hpd
            simpa using this.2
          exact Nat.lt_irrefl now (hZ ▸ hfresh u h1 hrid hdel)
        · exact List.mem_singleton.mp h2
      intro u hu hpd hZ u' hu' hpd' hZ'
      rw [hv2] at hu hu'
      rw [hgx u hu hpd hZ, hgx u' hu' hpd' hZ']
  have htriple : (((AddVersion (UpsertRepo st
      ⟨0, r.name, r.url, r.sync, obs.tag, now, obs.commitHash,
        zipFileNameOf r.name obs.commitHash,
        sizeOf (zipsPath storagePath (zipFileNameOf r.name obs.commitHash))⟩).1
      ⟨0, db.id, obs.tag, obs.commitHash, zipFileNameOf r.name obs.commitHash,
      sizeOf (zipsPath storagePath (zipFileNameOf r.name obs.commitHash)), now, false⟩).1).versions.filter
        (fun v => v.repoID == db.id && v.tag == obs.tag)).map
      (fun v => (v.commitHash, v.zipFile, v.size)) =
      [(obs.commitHash, zipFileNameOf r.name obs.commitHash,
        sizeOf (zipsPath storagePath (zipFileNameOf r.name obs.commitHash)))] := by
    rcases hbranch with ⟨x, hx, hv2⟩ | ⟨hflt, hv2⟩
    · rw [hv2, List.filter_map]
      have hpg : ((fun v : DBVersion => v.repoID == db.id && v.tag == obs.tag) ∘ (fun u => if u.repoID == db.id && u.tag == obs.tag then
        (⟨u.id, u.repoID, u.tag, obs.commitHash, zipFileNameOf r.name obs.commitHash,
          sizeOf (zipsPath storagePath (zipFileNameOf r.name obs.commitHash)), now, u.deleted⟩ : DBVersion)
      else u)) =
          (fun v : DBVersion => v.repoID == db.id && v.tag == obs.tag) := by
        funext u
        by_cases hk : u.repoID = db.id ∧ u.tag = obs.tag <;> simp [hk]
      rw [hpg, hx]
      have hkx : (x.repoID == db.id && x.tag == obs.tag) = true := by
        have hxx : x ∈ st.versions.filter
            (fun w => w.repoID == db.id && w.tag == obs.tag) := by
          rw [hx]
          exact List.mem_singleton.mpr rfl
        exact (List.mem_filter.mp hxx).2
      have hkx2 : x.repoID = db.id ∧ x.tag = obs.tag := by simpa using hkx
      simp [hkx2]
    · rw [hv2, List.filter_append, hflt]
      simp
  have hkey2 : ∀ v ∈ GetOlderThan3LatestUnDeletedVersions ((AddVersion (UpsertRepo st
      ⟨0, r.name, r.url, r.sync, obs.tag, now, obs.commitHash,
        zipFileNameOf r.name obs.commitHash,
        sizeOf (zipsPath storagePath (zipFileNameOf r.name obs.commitHash))⟩).1
      ⟨0, db.id, obs.tag, obs.commitHash, zipFileNameOf r.name obs.commitHash,
      sizeOf (zipsPath storagePath (zipFileNameOf r.name obs.commitHash)), now, false⟩).1) db.id,
      v.zipFile ≠ zipFileNameOf r.name obs.commitHash := by
    intro v hv hzeq
    have hvsor := List.drop_subset 3 _ hv
    have hvu := (List.perm_insertionSort createdAtDesc _).mem_iff.mp hvsor
    obtain ⟨hvmem, hvflt⟩ := List.mem_filter.mp hvu
    have hvnow : v.createdAt = now := hF6 v hvmem hvflt hzeq
    have hndsorted : (((((AddVersion (UpsertRepo st
      ⟨0, r.name, r.url, r.sync, obs.tag, now, obs.commitHash,
        zipFileNameOf r.name obs.commitHash,
        sizeOf (zipsPath storagePath (zipFileNameOf r.name obs.commitHash))⟩).1
      ⟨0, db.id, obs.tag, obs.commitHash, zipFileNameOf r.name obs.commitHash,
      sizeOf (zipsPath storagePath (zipFileNameOf r.name obs.commitHash)), now, false⟩).1).versions.filter
        (fun w => w.repoID == db.id && !w.deleted)).insertionSort
          createdAtDesc).map DBVersion.id).Nodup := by
      refine ((List.perm_insertionSort createdAtDesc _).map DBVersion.id).nodup_iff.mpr ?_
      exact List.Nodup.sublist ((List.filter_sublist _).map DBVersion.id) hids2
    obtain ⟨a, hatake, hane⟩ := exists_mem_take_ne _ hndsorted v hv
    have hasor := List.take_subset 3 _ hatake
    have hau := (List.perm_insertionSort createdAtDesc _).mem_iff.mp hasor
    obtain ⟨hamem, haflt⟩ := List.mem_filter.mp hau
    have hpw := List.sorted_insertionSort createdAtDesc
      (((AddVersion (UpsertRepo st
      ⟨0, r.name, r.url, r.sync, obs.tag, now, obs.commitHash,
        zipFileNameOf r.name obs.commitHash,
        sizeOf (zipsPath storagePath (zipFileNameOf r.name obs.commitHash))⟩).1
      ⟨0, db.id, obs.tag, obs.commitHash, zipFileNameOf r.name obs.commitHash,
      sizeOf (zipsPath storagePath (zipFileNameOf r.name obs.commitHash)), now, false⟩).1).versions.filter (fun w => w.repoID == db.id && !w.deleted))
    rw [← List.take_append_drop 3 (((((AddVersion (UpsertRepo st
      ⟨0, r.name, r.url, r.sync, obs.tag, now, obs.commitHash,
        zipFileNameOf r.name obs.commitHash,
        sizeOf (zipsPath storagePath (zipFileNameOf r.name obs.commitHash))⟩).1
      ⟨0, db.id, obs.tag, obs.commitHash, zipFileNameOf r.name obs.commitHash,
      sizeOf (zipsPath storagePath (zipFileNameOf r.name obs.commitHash)), now, false⟩).1).versions.filter
        (fun w => w.repoID == db.id && !w.deleted)).insertionSort createdAtDesc))] at hpw
    have hle : v.createdAt ≤ a.createdAt :=
      (List.pairwise_append.mp hpw).2.2 a hatake v hv
    have hub : a.createdAt ≤ now := hF8 a hamem haflt
    have hanow : a.createdAt = now := by omega
    exact hane (hF5 a hamem haflt hanow v hvmem hvflt hvnow)
  refine ⟨_, _, _, main, ?_, ?_, ?_⟩
  · refine runRetention_mem_disk _ _ _ _ _ ?_ ?_
    · exact (List.mem_erase_of_ne hneqpath).mpr (List.mem_cons_self _ _)
    · intro v hv heq
      exact hkey2 v hv (zipsPath_inj _ heq)
  · intro hmem
    have hsub := disk_runRetention_subset _ _ _ _ _ hmem
    exact ((List.Nodup.mem_erase_iff hnd2).mp hsub).1 rfl
  · rw [filter_map_triple_runRetention]
    exact htriple



theorem syncRepo_tag_moved_witness :
    (GetRepoByName (⟨[⟨1, "A", "u", "m", "v1", 5, "aaaaaaaa", "A-aaaaaaa.zip", 10⟩],
      [⟨1, 1, "v1", "aaaaaaaa", "A-aaaaaaa.zip", 10, 5, false⟩],
      [], 2, 2, 1⟩ : Store) "A" = some (⟨1, "A", "u", "m", "v1", 5, "aaaaaaaa", "A-aaaaaaa.zip", 10⟩ : DBRepo) ∧
     (⟨1, "A", "u", "m", "v1", 5, "aaaaaaaa", "A-aaaaaaa.zip", 10⟩ : DBRepo).tag = (⟨false, false, "bbbbbbbb", "v1", false⟩ : Observation).tag ∧
     (⟨1, "A", "u", "m", "v1", 5, "aaaaaaaa", "A-aaaaaaa.zip", 10⟩ : DBRepo).commitHash ≠ (⟨false, false, "bbbbbbbb", "v1", false⟩ : Observation).commitHash ∧
     (⟨1, "A", "u", "m", "v1", 5, "aaaaaaaa", "A-aaaaaaa.zip", 10⟩ : DBRepo).commitHash.take 7 ≠ (⟨false, false, "bbbbbbbb", "v1", false⟩ : Observation).commitHash.take 7 ∧
     7 ≤ (⟨1, "A", "u", "m", "v1", 5, "aaaaaaaa", "A-aaaaaaa.zip", 10⟩ : DBRepo).commitHash.length ∧
     zipsPath "/s" (zipFileNameOf "A" (⟨false, false, "bbbbbbbb", "v1", false⟩ : Observation).commitHash) ∉ ["/s/zips/A-aaaaaaa.zip"] ∧
     (["/s/zips/A-aaaaaaa.zip"] : List String).Nodup ∧
     ((⟨[⟨1, "A", "u", "m", "v1", 5, "aaaaaaaa", "A-aaaaaaa.zip", 10⟩],
      [⟨1, 1, "v1", "aaaaaaaa", "A-aaaaaaa.zip", 10, 5, false⟩],
      [], 2, 2, 1⟩ : Store).versions.map DBVersion.id).Nodup ∧
     (∀ v ∈ (⟨[⟨1, "A", "u", "m", "v1", 5, "aaaaaaaa", "A-aaaaaaa.zip", 10⟩],
      [⟨1, 1, "v1", "aaaaaaaa", "A-aaaaaaa.zip", 10, 5, false⟩],
      [], 2, 2, 1⟩ : Store).versions, v.id ≠ (⟨[⟨1, "A", "u", "m", "v1", 5, "aaaaaaaa", "A-aaaaaaa.zip", 10⟩],
      [⟨1, 1, "v1", "aaaaaaaa", "A-aaaaaaa.zip", 10, 5, false⟩],
      [], 2, 2, 1⟩ : Store).nextVersionId) ∧
     ((⟨[⟨1, "A", "u", "m", "v1", 5, "aaaaaaaa", "A-aaaaaaa.zip", 10⟩],
      [⟨1, 1, "v1", "aaaaaaaa", "A-aaaaaaa.zip", 10, 5, false⟩],
      [], 2, 2, 1⟩ : Store).versions.filter
        (fun v => v.repoID == (⟨1, "A", "u", "m", "v1", 5, "aaaaaaaa", "A-aaaaaaa.zip", 10⟩ : DBRepo).id && v.tag == (⟨false, false, "bbbbbbbb", "v1", false⟩ : Observation).tag)).length ≤ 1 ∧
     (∀ v ∈ (⟨[⟨1, "A", "u", "m", "v1", 5, "aaaaaaaa", "A-aaaaaaa.zip", 10⟩],
      [⟨1, 1, "v1", "aaaaaaaa", "A-aaaaaaa.zip", 10, 5, false⟩],
      [], 2, 2, 1⟩ : Store).versions, v.repoID = (⟨1, "A", "u", "m", "v1", 5, "aaaaaaaa", "A-aaaaaaa.zip", 10⟩ : DBRepo).id → v.deleted = false →
        v.createdAt < 9) ∧
     (∀ v ∈ (⟨[⟨1, "A", "u", "m", "v1", 5, "aaaaaaaa", "A-aaaaaaa.zip", 10⟩],
      [⟨1, 1, "v1", "aaaaaaaa", "A-aaaaaaa.zip", 10, 5, false⟩],
      [], 2, 2, 1⟩ : Store).versions, v.repoID = (⟨1, "A", "u", "m", "v1", 5, "aaaaaaaa", "A-aaaaaaa.zip", 10⟩ : DBRepo).id →
        v.zipFile ≠ zipFileNameOf "A" (⟨false, false, "bbbbbbbb", "v1", false⟩ : Observation).commitHash)) ∧
    (∃ st' disk' changed,
      syncRepo "/s" (⟨"A", "u", "m"⟩ : GitRepo) (⟨false, false, "bbbbbbbb", "v1", false⟩ : Observation) (fun _ => 10) 9 (⟨[⟨1, "A", "u", "m", "v1", 5, "aaaaaaaa", "A-aaaaaaa.zip", 10⟩],
      [⟨1, 1, "v1", "aaaaaaaa", "A-aaaaaaa.zip", 10, 5, false⟩],
      [], 2, 2, 1⟩ : Store) ["/s/zips/A-aaaaaaa.zip"] = .ok (st', disk', changed) ∧
      zipsPath "/s" (zipFileNameOf (⟨"A", "u", "m"⟩ : GitRepo).name (⟨false, false, "bbbbbbbb", "v1", false⟩ : Observation).commitHash) ∈ disk' ∧
      zipsPath "/s" (zipFileNameOf (⟨"A", "u", "m"⟩ : GitRepo).name (⟨1, "A", "u", "m", "v1", 5, "aaaaaaaa", "A-aaaaaaa.zip", 10⟩ : DBRepo).commitHash) ∉ disk' ∧
      (st'.versions.filter (fun v => v.repoID == (⟨1, "A", "u", "m", "v1", 5, "aaaaaaaa", "A-aaaaaaa.zip", 10⟩ : DBRepo).id && v.tag == (⟨false, false, "bbbbbbbb", "v1", false⟩ : Observation).tag)).map
          (fun v => (v.commitHash, v.zipFile, v.size)) =
        [((⟨false, false, "bbbbbbbb", "v1", false⟩ : Observation).commitHash, zipFileNameOf (⟨"A", "u", "m"⟩ : GitRepo).name (⟨false, false, "bbbbbbbb", "v1", false⟩ : Observation).commitHash,
          (fun _ : String => (10 : Int)) (zipsPath "/s" (zipFileNameOf (⟨"A", "u", "m"⟩ : GitRepo).name (⟨false, false, "bbbbbbbb", "v1", false⟩ : Observation).commitHash)))]) :=
  ⟨⟨by decide, by decide, by decide, by decide, by decide, by decide, by decide,
    by decide, by decide, by decide, by decide, by decide⟩,
   syncRepo_tag_moved "/s" (⟨"A", "u", "m"⟩ : GitRepo) (⟨false, false, "bbbbbbbb", "v1", false⟩ : Observation) (fun _ => 10) 9 (⟨[⟨1, "A", "u", "m", "v1", 5, "aaaaaaaa", "A-aaaaaaa.zip", 10⟩],
      [⟨1, 1, "v1", "aaaaaaaa", "A-aaaaaaa.zip", 10, 5, false⟩],
      [], 2, 2, 1⟩ : Store) ["/s/zips/A-aaaaaaa.zip"] (⟨1, "A", "u", "m", "v1", 5, "aaaaaaaa", "A-aaaaaaa.zip", 10⟩ : DBRepo)
     (by decide) (by decide) (by decide) (by decide) (by decide) (by decide)
     (by decide) (by decide) (by decide) (by decide) (by decide) (by decide)
     (by decide) (by decide) (by decide)⟩

/-- C4 counterexample: the tag moves between two different commits whose
first 7 characters coincide ("aaaaaaa1" to "aaaaaaa2"): the sync succeeds,
but no new artifact is built (the zip name is unchanged) and the eager
stale-file deletion then removes that very file, so the run ends with an
empty zips directory — no artifact for the new commit exists, contrary to
the claim. -/
theorem tag_move_prefix_collision_no_new_artifact :
    Except.map (fun out => out.2.1)
      (syncRepo "/s" ⟨"A", "u", "m"⟩ ⟨false, false, "aaaaaaa2", "v1", false⟩
        (fun _ => 10) 6
        ⟨[⟨1, "A", "u", "m", "v1", 5, "aaaaaaa1", "A-aaaaaaa.zip", 10⟩],
         [⟨1, 1, "v1", "aaaaaaa1", "A-aaaaaaa.zip", 10, 5, false⟩],
         [], 2, 2, 1⟩
        ["/s/zips/A-aaaaaaa.zip"]) = Except.ok [] := by decide

end DoraOSG
